import Mathlib

/-!
# Verification of the redis-like server (wire codec, store, streams, replication offset)

Shallow embedding of the Rust sources (`src/messages.rs`, `src/store.rs`,
`src/commands.rs`, `src/main.rs`).  Rust `String` values are modelled as lists
of Unicode scalar values (`RStr`); byte buffers as lists of `Nat` (each < 256).
Fallible Rust code is modelled with `PResult`: `.ok` for success, `.err` for a
recoverable `anyhow::Error` (propagated with `?`), `.panic` for a Rust panic
(out-of-bounds indexing/slicing, `unwrap`/`expect` on a failed value).
-/

namespace Redis

/-- A Rust `String`: the sequence of Unicode scalar values (`chars()`). -/
abbrev RStr := List Nat

/-- Convert a Lean string literal to the scalar-value model of a Rust string. -/
def str2r (s : String) : RStr := s.data.map Char.toNat

/-- A Unicode scalar value, as storable in a Rust `String`/`char`. -/
def validScalar (c : Nat) : Bool := decide (c < 0xD800) || (decide (0xDFFF < c) && decide (c < 0x110000))

def validStr (s : RStr) : Bool := s.all validScalar

def allAscii (s : RStr) : Bool := s.all (fun c => decide (c < 0x80))

/-- UTF-8 encoding of one scalar value (`char::encode_utf8`). -/
def utf8EncodeChar (c : Nat) : List Nat :=
  if c < 0x80 then [c]
  else if c < 0x800 then [0xC0 + c / 64, 0x80 + c % 64]
  else if c < 0x10000 then [0xE0 + c / 4096, 0x80 + (c / 64) % 64, 0x80 + c % 64]
  else [0xF0 + c / 0x40000, 0x80 + (c / 4096) % 64, 0x80 + (c / 64) % 64, 0x80 + c % 64]

/-- UTF-8 encoding of a Rust string (`String::as_bytes`). -/
def utf8Encode (s : RStr) : List Nat := (s.map utf8EncodeChar).flatten

def isCont (b : Nat) : Bool := decide (0x80 ≤ b) && decide (b < 0xC0)

mutual

/-- Strict UTF-8 decoding (`String::from_utf8`): rejects overlong forms,
surrogates, scalar values above 0x10FFFF, and truncated sequences.  The
two/three/four-byte continuations live in their own helpers purely for proof
convenience; the byte-level acceptance conditions are those of Rust's
validator, phrased through the recomposed scalar's value range. -/
def utf8Decode : List Nat → Option RStr
  | [] => some []
  | b :: rest =>
    if b < 0x80 then (utf8Decode rest).map (b :: ·)
    else if b < 0xC2 then none
    else if b < 0xE0 then utf8Dec2 b rest
    else if b < 0xF0 then utf8Dec3 b rest
    else if b < 0xF5 then utf8Dec4 b rest
    else none
termination_by structural l => l

def utf8Dec2 (b : Nat) : List Nat → Option RStr
  | b1 :: rest1 =>
    if isCont b1 then (utf8Decode rest1).map (((b - 0xC0) * 64 + (b1 - 0x80)) :: ·)
    else none
  | _ => none
termination_by structural rest => rest

def utf8Dec3 (b : Nat) : List Nat → Option RStr
  | b1 :: b2 :: rest1 =>
    let c := (b - 0xE0) * 4096 + (b1 - 0x80) * 64 + (b2 - 0x80)
    if isCont b1 && isCont b2 && decide (0x800 ≤ c) &&
        !(decide (0xD800 ≤ c) && decide (c ≤ 0xDFFF)) then
      (utf8Decode rest1).map (c :: ·)
    else none
  | _ => none
termination_by structural rest => rest

def utf8Dec4 (b : Nat) : List Nat → Option RStr
  | b1 :: b2 :: b3 :: rest1 =>
    let c := (b - 0xF0) * 0x40000 + (b1 - 0x80) * 4096 + (b2 - 0x80) * 64 + (b3 - 0x80)
    if isCont b1 && isCont b2 && isCont b3 && decide (0x10000 ≤ c) && decide (c < 0x110000) then
      (utf8Decode rest1).map (c :: ·)
    else none
  | _ => none
termination_by structural rest => rest

end

/-- Big-endian decimal digits (ASCII codes) of a natural number, as produced by
Rust `Display` for unsigned integers.  The fuel argument of `natToDigitsGo`
only serves structural termination; `fuel = n + 1` always suffices. -/
def natToDigitsGo : Nat → Nat → List Nat
  | 0, _ => []
  | fuel + 1, n => if n < 10 then [n + 48] else natToDigitsGo fuel (n / 10) ++ [n % 10 + 48]

def natToDigits (n : Nat) : List Nat := natToDigitsGo (n + 1) n

/-- Rust `Display` for a signed integer. -/
def intToDigits (n : Int) : List Nat :=
  if n < 0 then 45 :: natToDigits n.natAbs else natToDigits n.toNat

def isDigit (c : Nat) : Bool := decide (48 ≤ c) && decide (c ≤ 57)

def digitsToNat (ds : List Nat) : Nat := ds.foldl (fun acc d => acc * 10 + (d - 48)) 0

/-- Digit-string parsing common to Rust integer `FromStr`: non-empty, decimal
digits only. -/
def parseNatDigits (ds : List Nat) : Option Nat :=
  if ds ≠ [] && ds.all isDigit then some (digitsToNat ds) else none

/-- Rust `str::parse::<u64>`: optional leading `+`, digits, overflow check. -/
def parseU64 : RStr → Option Nat
  | [] => none
  | c :: rest =>
    (if c = 43 then parseNatDigits rest else parseNatDigits (c :: rest)).bind
      (fun n => if n < 2 ^ 64 then some n else none)

/-- Rust `str::parse::<i64>` (= `isize` on a 64-bit target): optional sign,
digits, overflow check. -/
def parseI64 : RStr → Option Int
  | [] => none
  | c :: rest =>
    if c = 45 then
      (parseNatDigits rest).bind (fun n => if n ≤ 2 ^ 63 then some (-(n : Int)) else none)
    else if c = 43 then
      (parseNatDigits rest).bind (fun n => if n < 2 ^ 63 then some ((n : Int)) else none)
    else
      (parseNatDigits (c :: rest)).bind (fun n => if n < 2 ^ 63 then some ((n : Int)) else none)

/-- `str::split_once(sep)`: split at the first occurrence of `sep`. -/
def splitOnce (sep : Nat) : RStr → Option (RStr × RStr)
  | [] => none
  | c :: rest =>
    if c = sep then some ([], rest)
    else (splitOnce sep rest).map (fun p => (c :: p.1, p.2))

/-- ASCII lowercasing, faithful to `str::to_lowercase` on the ASCII command
verbs this server compares against (full Unicode lowercasing differs only on
non-ASCII scalars, which never match the ASCII verb literals below). -/
def toLower (s : RStr) : RStr := s.map (fun c => if 65 ≤ c ∧ c ≤ 90 then c + 32 else c)

/-- True when the list contains no `\r\n` byte pair. -/
def noCRLF : List Nat → Bool
  | [] => true
  | [_] => true
  | a :: b :: rest => !(a = 13 && b = 10) && noCRLF (b :: rest)

/-- `messages.rs`: the `Message` enum. -/
inductive Message where
  | error (s : RStr)
  | simpleString (s : RStr)
  | bulkString (s : RStr)
  | array (items : List Message)
  | integer (n : Int)
  | null

/-- Outcome of Rust code that may fail: `.err` is a recoverable
`anyhow::Error`, `.panic` is a Rust panic. -/
inductive PResult (α : Type) where
  | ok (val : α)
  | err
  | panic
deriving DecidableEq

mutual

/-- `messages.rs` `Message::serialize` (always `Ok` in the source, so modelled
as total).  Note the `BulkString` length is `s.chars().count()` — the number
of scalar values, `s.length` here — not the UTF-8 byte count. -/
def Message.serialize : Message → List Nat
  | .error s => 45 :: (utf8Encode s ++ [13, 10])
  | .simpleString s => 43 :: (utf8Encode s ++ [13, 10])
  | .bulkString s => 36 :: (natToDigits s.length ++ [13, 10] ++ utf8Encode s ++ [13, 10])
  | .array items => 42 :: (natToDigits items.length ++ [13, 10] ++ serializeList items)
  | .integer n => 58 :: (intToDigits n ++ [13, 10])
  | .null => [36, 45, 49, 13, 10]

/-- Concatenation of the serializations of a list of messages
(`parts.join("")` in `Message::serialize` for arrays). -/
def serializeList : List Message → List Nat
  | [] => []
  | m :: ms => Message.serialize m ++ serializeList ms

end

/-- `messages.rs` `read_until_crlf`: index of the first `\r\n` pair; returns
the bytes before it and the number of bytes consumed through the pair. -/
def read_until_crlf : List Nat → Option (List Nat × Nat)
  | a :: b :: rest =>
    if a = 13 ∧ b = 10 then some ([], 2)
    else
      match read_until_crlf (b :: rest) with
      | some (line, len) => some (a :: line, len + 1)
      | none => none
  | _ => none

/-- `messages.rs` `parse_int`: `String::from_utf8` then `parse::<i64>`. -/
def parse_int (l : List Nat) : Option Int := (utf8Decode l).bind parseI64

/-- `messages.rs` `parse_simple_string`. -/
def parse_simple_string (bytes : List Nat) : PResult (Message × Nat) :=
  match read_until_crlf bytes.tail with
  | some (line, len) =>
    match utf8Decode line with
    | some s => .ok (.simpleString s, len + 1)
    | none => .err
  | none => .err

/-- `messages.rs` `parse_integer`. -/
def parse_integer (bytes : List Nat) : PResult (Message × Nat) :=
  match read_until_crlf bytes.tail with
  | some (line, len) =>
    match utf8Decode line with
    | none => .err
    | some s =>
      match parseI64 s with
      | some v => .ok (.integer v, len + 1)
      | none => .err
  | none => .err

/-- `messages.rs` `parse_bulk_string`.  `parse_int(line).unwrap()` panics on a
non-numeric length; `str_len as usize` on a negative length, followed by the
slice `bytes[bytes_consumed..end_of_bulk_str]`, panics in both build profiles
(arithmetic overflow in debug, reversed/out-of-range slice bounds in release),
so a negative length is modelled as `.panic` directly.  The slice also panics
when the declared end lies past the end of the buffer.  The trailing CRLF is
counted in `total_length` but never inspected, as in the source. -/
def parse_bulk_string (bytes : List Nat) : PResult (Message × Nat) :=
  match read_until_crlf bytes.tail with
  | none => .err
  | some (line, len) =>
    match parse_int line with
    | none => .panic
    | some strLen =>
      let bytesConsumed := len + 1
      if strLen < 0 then .panic
      else
        let endPos := bytesConsumed + strLen.toNat
        if bytes.length < endPos then .panic
        else
          match utf8Decode ((bytes.drop bytesConsumed).take strLen.toNat) with
          | some s => .ok (.bulkString s, endPos + 2)
          | none => .err

/-- Argument of the combined parser: either `parse_message` on a buffer, or
the element loop of `parse_array` over the original buffer (`n` elements left
to read, `bc` = `bytes_consumed`, `items` accumulated in reverse). -/
inductive PJob where
  | msg (bytes : List Nat)
  | loop (bytes : List Nat) (n : Nat) (bc : Nat) (items : List Message)

/-- `messages.rs` `parse_message` / `parse_array` (the `*` arm of `parse_message`
is `parse_array`, inlined here: header read, `parse_int(line).unwrap()` —
panic on a non-numeric count — then the element loop; a negative count makes
the `0..n` loop empty, hence `Int.toNat`).  `bytes[0]` on an empty buffer
panics.  The fuel argument only serves structural termination (every
recursive call strictly decreases it); the entry point `Message.parse`
supplies `bytes.length + 1`, which is always sufficient: a successful
element parse consumes at least 3 bytes of buffer per 2 fuel steps (see
`parseGo_serialize` below for the proved adequacy on serialized messages). -/
def parseGo : Nat → PJob → PResult (Message × Nat)
  | 0, _ => .panic
  | fuel + 1, .msg bytes =>
    match bytes.head? with
    | none => .panic
    | some b =>
      if b = 42 then
        match read_until_crlf bytes.tail with
        | none => .err
        | some (line, len) =>
          match parse_int line with
          | none => .panic
          | some n => parseGo fuel (.loop bytes n.toNat (len + 1) [])
      else if b = 43 then parse_simple_string bytes
      else if b = 58 then parse_integer bytes
      else if b = 36 then parse_bulk_string bytes
      else .err
  | _ + 1, .loop _ 0 bc items => .ok (.array items.reverse, bc)
  | fuel + 1, .loop bytes (n + 1) bc items =>
    match parseGo fuel (.msg (bytes.drop bc)) with
    | .ok (item, l) => parseGo fuel (.loop bytes n (bc + l) (item :: items))
    | .err => .err
    | .panic => .panic

/-- `messages.rs` `Message::parse`. -/
def Message.parse (bytes : List Nat) : PResult (Message × Nat) :=
  parseGo (bytes.length + 1) (.msg bytes)

mutual

/-- The messages whose serialization the parser maps back to themselves:
no `Error` (the parser has no `-` arm) and no `Null` (its `$-1` frame parses
as a bulk string of length `-1` and panics); simple-string payloads are valid
Unicode with no CRLF pair in their encoding; bulk payloads are ASCII (the
serialized length is the scalar count, which the parser reads as a byte
count); integers fit `i64`; bulk/array lengths fit the parser's `i64` length
read (automatic for any realizable Rust value, where lengths are `usize`). -/
def wfMessage : Message → Bool
  | .error _ => false
  | .simpleString s => validStr s && noCRLF (utf8Encode s)
  | .bulkString s => allAscii s && decide (s.length < 2 ^ 63)
  | .integer n => decide (-(2 ^ 63 : Int) ≤ n) && decide (n < 2 ^ 63)
  | .null => false
  | .array items => decide (items.length < 2 ^ 63) && wfList items

def wfList : List Message → Bool
  | [] => true
  | m :: ms => wfMessage m && wfList ms

end

/-! ## The in-memory store (`store.rs`)

`std::collections::HashMap` is modelled by an association list that carries
the map's *contents* faithfully: `hmInsert` overwrites the value of an
existing key in place and appends a fresh key.  The iteration order of the
real `HashMap` is unspecified (randomly seeded), so no theorem below relies
on the order of this list, only on membership and lookup. -/

def hmInsert {α β : Type} [DecidableEq α] (l : List (α × β)) (k : α) (v : β) : List (α × β) :=
  match l with
  | [] => [(k, v)]
  | (k1, v1) :: rest => if k1 = k then (k, v) :: rest else (k1, v1) :: hmInsert rest k v

def hmLookup {α β : Type} [DecidableEq α] (l : List (α × β)) (k : α) : Option β :=
  match l with
  | [] => none
  | (k1, v1) :: rest => if k1 = k then some v1 else hmLookup rest k

/-- `store.rs` `Entry`: a string value with an optional absolute expiry
instant (milliseconds; `SystemTime` is modelled as a millisecond count). -/
structure Entry where
  value : RStr
  expiry_at : Option Nat
deriving DecidableEq

/-- `store.rs` `StreamId { ms, seq }`; both fields are `u64` and always
produced by `parseU64`, hence below `2^64`. -/
structure StreamId where
  ms : Nat
  seq : Nat
deriving DecidableEq

/-- The derived `PartialOrd` on `StreamId` compares `(ms, seq)`
lexicographically. -/
def StreamId.lt (a b : StreamId) : Prop := a.ms < b.ms ∨ (a.ms = b.ms ∧ a.seq < b.seq)

instance : DecidablePred (fun p : StreamId × StreamId => StreamId.lt p.1 p.2) := by
  intro p
  unfold StreamId.lt
  infer_instance

instance streamIdLtDec (a b : StreamId) : Decidable (StreamId.lt a b) := by
  unfold StreamId.lt
  infer_instance

/-- `store.rs` `StreamData`: field/value pairs held in a `HashMap`, modelled
by its contents (see `hmInsert`). -/
structure StreamData where
  data : List (RStr × RStr)
deriving DecidableEq

/-- `store.rs` `Stream`: the append-only entry log. -/
structure Stream where
  entries : List (StreamId × StreamData)
deriving DecidableEq

inductive StoreItem where
  | kv (e : Entry)
  | stream (s : Stream)
deriving DecidableEq

/-- `StoreItem::value_type` (via the `EntryValue` trait). -/
def StoreItem.value_type : StoreItem → String
  | .kv _ => "string"
  | .stream _ => "stream"

structure Store where
  data : List (RStr × StoreItem)
deriving DecidableEq

def Store.new : Store := ⟨[]⟩

/-- `Store::keys`. -/
def Store.keys (st : Store) : List RStr := st.data.map Prod.fst

/-- `Store::set_kv_value`. -/
def Store.set_kv_value (st : Store) (key : RStr) (e : Entry) : Store :=
  ⟨hmInsert st.data key (.kv e)⟩

/-- `Store::get_value`. -/
def Store.get_value (st : Store) (key : RStr) : Option StoreItem :=
  hmLookup st.data key

/-- `Store::get_stream` (and `get_mut_stream`, which reads identically). -/
def Store.get_stream (st : Store) (key : RStr) : Option Stream :=
  match hmLookup st.data key with
  | some (.stream s) => some s
  | _ => none

/-- `Store::get_kv_value`: present, of string kind, and not yet expired
(`SystemTime::now() > expiry` evicts the read, strictly). -/
def Store.get_kv_value (now : Nat) (st : Store) (key : RStr) : Option Entry :=
  match hmLookup st.data key with
  | some (.kv e) =>
    match e.expiry_at with
    | some t => if now > t then none else some e
    | none => some e
  | _ => none

/-- `store.rs` `StreamId::from(&String)`: `split_once('-')` then two
`parse::<u64>`, each `expect`ed — `none` models the panic. -/
def streamIdFrom (id : RStr) : Option StreamId :=
  match splitOnce 45 id with
  | none => none
  | some (msS, seqS) =>
    match parseU64 msS, parseU64 seqS with
    | some ms, some seq => some ⟨ms, seq⟩
    | _, _ => none

/-- `store.rs` `build_stream_id`; the wall clock (`SystemTime::now()` in
milliseconds since the epoch) is passed explicitly as `now`.  Returns
`.panic` when `split_once('-').unwrap()` fails; the source otherwise always
returns `Some`. -/
def build_stream_id (now : Nat) (pattern : RStr) (lastEntry : Option StreamId) : PResult RStr :=
  let pat := if pattern.length < 3 then [42, 45, 42] else pattern
  match splitOnce 45 pat with
  | none => .panic
  | some (curMs, curSeq) =>
    let autoMs := curMs = [42]
    let idMs := if autoMs then natToDigits now else curMs
    let relevant : Option StreamId :=
      match lastEntry with
      | some lastId => if natToDigits lastId.ms = idMs then some lastId else none
      | none => none
    let autoSeq := curSeq = [42]
    let idSeq :=
      match relevant with
      | some lastId => if autoSeq then natToDigits (lastId.seq + 1) else curSeq
      | none => if autoSeq then (if idMs = [48] then [49] else [48]) else curSeq
    .ok (idMs ++ 45 :: idSeq)

/-- `Store::auto_generate_stream_id`: resolve the id pattern against the last
entry of the stream at `key` (absent stream and empty stream both resolve
against no last entry). -/
def Store.auto_generate_stream_id (now : Nat) (st : Store) (key : RStr) (idPattern : RStr) :
    PResult RStr :=
  match st.get_stream key with
  | some s => build_stream_id now idPattern ((s.entries.map Prod.fst).getLast?)
  | none => build_stream_id now idPattern none

/-- Success/domain-error/panic outcome of a store operation; the error carries
the exact `bail!` message. -/
inductive SResult where
  | ok
  | err (msg : String)
  | panic
deriving DecidableEq

/-- `Store::validate_stream_id`.  NOTE (faithful to the source): when the
stream is absent or has no entries the function returns `Ok` *before* any
check, so `0-0` is not rejected there.  When a last entry exists, the id
string is parsed with `unwrap`s (panic on a malformed id). -/
def Store.validate_stream_id (st : Store) (key : RStr) (id : RStr) : SResult :=
  match st.get_stream key with
  | none => .ok
  | some s =>
    match (s.entries.map Prod.fst).getLast? with
    | none => .ok
    | some lastId =>
      match splitOnce 45 id with
      | none => .panic
      | some (msS, seqS) =>
        match parseU64 msS, parseU64 seqS with
        | some curMs, some curSeq =>
          if curMs = 0 ∧ curSeq = 0 then
            .err ("ERR The ID specified in XADD must be greater than 0-0")
          else if curMs < lastId.ms then
            .err ("ERR The ID specified in XADD is equal or smaller than the target stream top item")
          else if curMs = lastId.ms ∧ curSeq ≤ lastId.seq then
            .err ("ERR The ID specified in XADD is equal or smaller than the target stream top item")
          else .ok
        | _, _ => .panic

/-- `Store::append_stream_value`: push onto the stream at `key`, creating it
(and displacing any string entry held there) when absent.  The stream is
created *before* `StreamId::from(id)` runs, so a malformed id panics (the
`Bool` is false) but a freshly created empty stream stays behind, exactly as
in the source. -/
def Store.append_stream_value (st : Store) (key : RStr) (id : RStr) (values : StreamData) :
    Store × Bool :=
  let p : Store × Stream :=
    match st.get_stream key with
    | some s => (st, s)
    | none => (⟨hmInsert st.data key (.stream ⟨[]⟩)⟩, ⟨[]⟩)
  match streamIdFrom id with
  | none => (p.1, false)
  | some sid =>
    (⟨hmInsert p.1.data key (.stream ⟨p.2.entries ++ [(sid, values)]⟩)⟩, true)

/-! ## Command parsing (`commands.rs`) and dispatch (`main.rs`) -/

/-- `main.rs` `Command` (the variants carried through `parse_client_command`).
`Set` carries the already-built `Entry`; `XREAD` carries the resolved block
deadline. -/
inductive Command where
  | echo (s : RStr)
  | ping
  | set (key : RStr) (e : Entry)
  | get (key : RStr)
  | info (sect : RStr)
  | replconf (args : List RStr)
  | psync (args : List RStr)
  | wait (numReplicas : Nat) (timeout : Nat)
  | config (action : RStr) (key : RStr)
  | keys (pattern : RStr)
  | typeOf (key : RStr)
  | xadd (key : RStr) (id : RStr) (values : StreamData)
  | xrange (key : RStr) (start : RStr) (stop : RStr)
  | xread (block : Option Nat) (wait : Bool) (requests : List (RStr × RStr))
deriving DecidableEq

/-- `messages.rs` `unpack_string`: only simple and bulk strings unpack. -/
def unpack_string : Message → PResult RStr
  | .simpleString s => .ok s
  | .bulkString s => .ok s
  | _ => .err

/-- `commands.rs` `parse_command`: the verb is the first element of an array
(`x.first().unwrap()` panics on an empty array). -/
def parse_command : Message → PResult (RStr × List Message)
  | .array [] => .panic
  | .array (x :: rest) =>
    match unpack_string x with
    | .ok s => .ok (s, rest)
    | _ => .err
  | _ => .err

/-- `commands.rs` `get_key_value_from_args`. -/
def get_key_value_from_args (args : List Message) : PResult (RStr × RStr) :=
  match args with
  | a :: b :: _ =>
    match unpack_string a, unpack_string b with
    | .ok k, .ok v => .ok (k, v)
    | _, _ => .err
  | _ => .err

/-- `commands.rs` `get_string_from_args`: rejects `args.len() < n` with an
error, but `n = args.len()` slips past the guard and panics on
`args.get(n).unwrap()`. -/
def get_string_from_args (args : List Message) (n : Nat) : PResult RStr :=
  if args.length < n then .err
  else
    match args.get? n with
    | some m => unpack_string m
    | none => .panic

/-- `commands.rs` `get_expiry_from_args`: a `px` tag (exact lowercase match)
in position 2 and a millisecond count in position 3 (`unwrap_or_default`, so
an unparsable count silently becomes 0). -/
def get_expiry_from_args (args : List Message) : Option Nat :=
  if args.length < 4 then none
  else
    let tag := match args.get? 2 with
      | some px => match unpack_string px with | .ok s => s | _ => []
      | none => []
    if tag ≠ str2r ("px") then none
    else
      match args.get? 3 with
      | some dur =>
        let time := match unpack_string dur with | .ok s => s | _ => []
        some ((parseU64 time).getD 0)
      | none => none

/-- `commands.rs` `get_wait_args`. -/
def get_wait_args (args : List Message) : PResult (Nat × Nat) :=
  if args.length < 2 then .err
  else
    match args.get? 0, args.get? 1 with
    | some a, some b =>
      match unpack_string a, unpack_string b with
      | .ok sa, .ok sb =>
        match parseU64 sa, parseU64 sb with
        | some n, some t => .ok (n, t)
        | _, _ => .err
      | _, _ => .err
    | _, _ => .panic

/-- `commands.rs` `get_config_params_from_args`. -/
def get_config_params_from_args (args : List Message) : PResult (RStr × RStr) :=
  if args.length < 2 then .err
  else
    match args.get? 0, args.get? 1 with
    | some a, some b =>
      match unpack_string a, unpack_string b with
      | .ok sa, .ok sb => .ok (sa, sb)
      | _, _ => .err
    | _, _ => .panic

/-- The pair loop of `commands.rs` `get_stream_data`: `unpack_string(..).unwrap()`
panics on a non-string member.  Only called on even-length lists; a leftover
singleton is the out-of-bounds `messages[i + 1]` panic. -/
def gsdLoop : List Message → List (RStr × RStr) → PResult (List (RStr × RStr))
  | [], acc => .ok acc
  | k :: v :: rest, acc =>
    match unpack_string k, unpack_string v with
    | .ok ks, .ok vs => gsdLoop rest (hmInsert acc ks vs)
    | _, _ => .panic
  | [_], _ => .panic

/-- `commands.rs` `get_stream_data`: field/value arguments taken pairwise
into a `HashMap` (`hmInsert`: a repeated field overwrites its value). -/
def get_stream_data (messages : List Message) : PResult StreamData :=
  if messages.length % 2 ≠ 0 then .err
  else
    match gsdLoop messages [] with
    | .ok d => .ok ⟨d⟩
    | .err => .err
    | .panic => .panic

/-- `args.iter().map(|x| unpack_string(x).unwrap()).collect()`. -/
def unpackAll : List Message → PResult (List RStr)
  | [] => .ok []
  | m :: ms =>
    match unpack_string m with
    | .ok s =>
      match unpackAll ms with
      | .ok l => .ok (s :: l)
      | r => r
    | _ => .panic

/-- The request-collection loop of the `xread` arm (`key_marker + i` and
`id_marker + i` are always in bounds when reached, by the arity arithmetic). -/
def xreadLoop (args : List Message) (keyM idM : Nat) : Nat → Nat → PResult (List (RStr × RStr))
  | _, 0 => .ok []
  | i, r + 1 =>
    match get_string_from_args args (keyM + i), get_string_from_args args (idM + i) with
    | .ok k, .ok v =>
      match xreadLoop args keyM idM (i + 1) r with
      | .ok l => .ok ((k, v) :: l)
      | other => other
    | .err, _ => .err
    | .panic, _ => .panic
    | _, .err => .err
    | _, .panic => .panic

/-- `commands.rs` `parse_client_command` (the version `main.rs` imports).
`now` stands for `SystemTime::now()` in milliseconds, used by the `set` arm
(absolute expiry) and the `xread` arm (block deadline).  In the `xread` arm,
`args.len() - marker` underflows `usize` when fewer than `marker` arguments
follow; that is modelled as the (debug-profile) panic. -/
def parse_client_command (now : Nat) (message : Message) : PResult Command :=
  match parse_command message with
  | .err => .err
  | .panic => .panic
  | .ok (cmdRaw, args) =>
    let cmd := toLower cmdRaw
    if cmd = str2r ("ping") then .ok .ping
    else if cmd = str2r ("echo") then
      match args.head? with
      | none => .panic
      | some m =>
        match unpack_string m with
        | .ok s => .ok (.echo s)
        | _ => .err
    else if cmd = str2r ("set") then
      match get_key_value_from_args args with
      | .ok (k, v) =>
        let expiry := get_expiry_from_args args
        .ok (.set k ⟨v, expiry.map (fun d => now + d)⟩)
      | .err => .err
      | .panic => .panic
    else if cmd = str2r ("get") then
      match args.head? with
      | none => .panic
      | some m =>
        match unpack_string m with
        | .ok s => .ok (.get s)
        | _ => .err
    else if cmd = str2r ("info") then
      match args.head? with
      | none => .ok (.info [])
      | some m =>
        match unpack_string m with
        | .ok s => .ok (.info s)
        | _ => .err
    else if cmd = str2r ("replconf") then
      match unpackAll args with
      | .ok l => .ok (.replconf l)
      | _ => .panic
    else if cmd = str2r ("psync") then
      match unpackAll args with
      | .ok l => .ok (.psync l)
      | _ => .panic
    else if cmd = str2r ("wait") then
      match get_wait_args args with
      | .ok (n, t) => .ok (.wait n t)
      | .err => .err
      | .panic => .panic
    else if cmd = str2r ("config") then
      match get_config_params_from_args args with
      | .ok (a, k) => .ok (.config a k)
      | .err => .err
      | .panic => .panic
    else if cmd = str2r ("keys") then
      match args.head? with
      | none => .ok (.keys [])
      | some m =>
        match unpack_string m with
        | .ok s => .ok (.keys s)
        | _ => .err
    else if cmd = str2r ("type") then
      match args.head? with
      | none => .ok (.typeOf [])
      | some m =>
        match unpack_string m with
        | .ok s => .ok (.typeOf s)
        | _ => .err
    else if cmd = str2r ("xadd") then
      match get_string_from_args args 0 with
      | .ok key =>
        match get_string_from_args args 1 with
        | .ok id =>
          match get_stream_data (args.drop 2) with
          | .ok d => .ok (.xadd key id d)
          | .err => .err
          | .panic => .panic
        | .err => .err
        | .panic => .panic
      | .err => .err
      | .panic => .panic
    else if cmd = str2r ("xrange") then
      match get_string_from_args args 0, get_string_from_args args 1, get_string_from_args args 2 with
      | .ok key, .ok s, .ok e => .ok (.xrange key s e)
      | .panic, _, _ => .panic
      | _, .panic, _ => .panic
      | _, _, .panic => .panic
      | _, _, _ => .err
    else if cmd = str2r ("xread") then
      match get_string_from_args args 0 with
      | .err => .err
      | .panic => .panic
      | .ok firstArg =>
        let go : Option Nat → Bool → Nat → PResult Command := fun block wait marker =>
          if args.length < marker then .panic
          else if (args.length - marker) % 2 ≠ 0 then .err
          else
            let amount := (args.length - marker) / 2
            match xreadLoop args marker (marker + amount) 0 amount with
            | .ok reqs => .ok (.xread block wait reqs)
            | .err => .err
            | .panic => .panic
        if toLower firstArg = str2r ("streams") then go none false 1
        else if toLower firstArg = str2r ("block") then
          match get_string_from_args args 1 with
          | .err => .err
          | .panic => .panic
          | .ok durS =>
            match parseU64 durS with
            | none => .panic
            | some dur => go (some (now + dur)) (dur = 0) 3
        else .err
    else .err

/-! ## Client-facing handlers (`main.rs` `handle_client` branches) -/

/-- The `Command::Get` branch: the reply bytes — a bulk string for a live
entry, the raw `$-1\r\n` otherwise. -/
def getResponse (now : Nat) (st : Store) (key : RStr) : List Nat :=
  match st.get_kv_value now key with
  | some e => (Message.bulkString e.value).serialize
  | none => [36, 45, 49, 13, 10]

/-- The `Command::Type` branch: an empty key is refused before any lookup;
otherwise the item's `value_type()` or `"none"`. -/
def typeResponse (st : Store) (key : RStr) : Message :=
  if key.length = 0 then .simpleString (str2r ("Need a key to fetch the type"))
  else
    match st.get_value key with
    | some x => .simpleString (str2r x.value_type)
    | none => .simpleString (str2r ("none"))

/-- The `Command::Keys` branch: only the literal `*` pattern is served. -/
def keysResponse (st : Store) (pattern : RStr) : Message :=
  if pattern = [42] then .array (st.keys.map .bulkString)
  else .simpleString (str2r ("Unsupported keys pattern"))

/-- The `Command::XADD` branch: resolve the id, validate, then append.
Returns the store afterwards and the reply (`none` when the task panicked,
in which case no reply is written). -/
def xaddStep (now : Nat) (st : Store) (key idPattern : RStr) (values : StreamData) :
    Store × Option Message :=
  match st.auto_generate_stream_id now key idPattern with
  | .err => (st, none)
  | .panic => (st, none)
  | .ok id =>
    match st.validate_stream_id key id with
    | .err msg => (st, some (.error (str2r msg)))
    | .panic => (st, none)
    | .ok =>
      let r := st.append_stream_value key id values
      if r.2 then (r.1, some (.bulkString id)) else (r.1, none)

/-! ## Replica-side ingestion (`main.rs` `handle_master`) -/

/-- The `REPLCONF ACK <n>` reply built by `handle_master`. -/
def ackMessage (n : Nat) : Message :=
  .array [.bulkString (str2r ("REPLCONF")), .bulkString (str2r ("ACK")),
          .bulkString (natToDigits n)]

/-- One iteration of the `handle_master` loop on an upstream message: apply
`SET`, answer `REPLCONF GETACK` with the *current* byte count, and only then
add the message's serialized length.  A message that fails
`parse_client_command` is skipped (`continue`) without being counted. -/
def handleMasterStep (now : Nat) (st : Store) (acc : Nat) (m : Message) :
    PResult (Store × Nat × Option Message) :=
  match parse_client_command now m with
  | .err => .ok (st, acc, none)
  | .panic => .panic
  | .ok cmd =>
    let next : PResult (Store × Option Message) :=
      match cmd with
      | .set k e => .ok (st.set_kv_value k e, none)
      | .replconf args =>
        match args.head? with
        | none => .panic
        | some a => .ok (st, if toLower a = str2r ("getack") then some (ackMessage acc) else none)
      | _ => .ok (st, none)
    match next with
    | .panic => .panic
    | .err => .err
    | .ok (st1, out) => .ok (st1, acc + (Message.serialize m).length, out)

/-- The `handle_master` loop over a finite prefix of the upstream message
sequence; a panic kills the ingestion task, truncating the run. -/
def handleMasterRun (now : Nat) : List Message → Store → Nat → Store × Nat × List Message
  | [], st, acc => (st, acc, [])
  | m :: ms, st, acc =>
    match handleMasterStep now st acc m with
    | .ok (st1, acc1, out) =>
      let r := handleMasterRun now ms st1 acc1
      (r.1, r.2.1, out.toList ++ r.2.2)
    | _ => (st, acc, [])

/-- Whether `handle_master` panics on this message (independent of store and
offset): a panicking command parse, or `REPLCONF` with no arguments
(`args.first().expect(..)`). -/
def stepPanics (now : Nat) (m : Message) : Bool :=
  match parse_client_command now m with
  | .panic => true
  | .err => false
  | .ok (.replconf args) => args.isEmpty
  | .ok _ => false

/-- The bytes `handle_master` adds to its offset for one message: the
serialized length when the message parses as a command, 0 otherwise. -/
def countedLen (now : Nat) (m : Message) : Nat :=
  match parse_client_command now m with
  | .ok _ => (Message.serialize m).length
  | _ => 0

/-- Whether the message is recognized as `REPLCONF GETACK ...`. -/
def isGetack (now : Nat) (m : Message) : Bool :=
  match parse_client_command now m with
  | .ok (.replconf (a :: _)) => toLower a = str2r ("getack")
  | _ => false

/-! ## Spec-side predicates and run helpers -/

/-- An XADD id with both fields written out: it splits at a `-` and both
sides parse as `u64` (so neither side is `*`), and it is long enough to
escape the `pattern.len() < 3` rewrite to `*-*`. -/
def fullySpecifiedId (id : RStr) : Bool :=
  decide (3 ≤ id.length) &&
    match splitOnce 45 id with
    | some (a, b) => (parseU64 a).isSome && (parseU64 b).isSome
    | none => false

/-- Every stream held in the store is strictly increasing in
(ms, seq)-lexicographic id order. -/
def storeStreamsSorted (st : Store) : Prop :=
  ∀ p ∈ st.data, ∀ s : Stream, p.2 = .stream s →
    List.Chain' StreamId.lt (s.entries.map Prod.fst)

/-- Run a sequence of XADD commands (key, id pattern, field/value data)
through the dispatcher, threading the store. -/
def xaddRun (now : Nat) (ops : List (RStr × RStr × StreamData)) (st : Store) : Store :=
  ops.foldl (fun s op => (xaddStep now s op.1 op.2.1 op.2.2).1) st

/-- The XADD field/value arguments, as the message list following `key id`. -/
def pairsToMessages (ps : List (RStr × RStr)) : List Message :=
  (ps.map (fun p => [Message.bulkString p.1, Message.bulkString p.2])).flatten

/-- The value paired with the last occurrence of field `k` in the argument
pairs. -/
def lastAssign (ps : List (RStr × RStr)) (k : RStr) : Option RStr :=
  hmLookup ps.reverse k

/-- The entry log of the stream at `key` (empty when the key is absent or
holds a string). -/
def streamEntriesAt (st : Store) (key : RStr) : List (StreamId × StreamData) :=
  match st.get_stream key with
  | some s => s.entries
  | none => []

/-- The map contents `get_stream_data` builds from the argument pairs. -/
def hmOfPairs (ps : List (RStr × RStr)) : List (RStr × RStr) :=
  ps.foldl (fun m p => hmInsert m p.1 p.2) []

/-! ## Decimal rendering and parsing -/

theorem digitsToNat_append (xs : List Nat) (d : Nat) :
    digitsToNat (xs ++ [d]) = digitsToNat xs * 10 + (d - 48) := by
  simp [digitsToNat, List.foldl_append]

theorem natToDigitsGo_spec :
    ∀ fuel n, n < fuel →
      natToDigitsGo fuel n ≠ [] ∧ (∀ c ∈ natToDigitsGo fuel n, isDigit c = true) ∧
        digitsToNat (natToDigitsGo fuel n) = n := by
  intro fuel
  induction fuel with
  | zero => intro n hn; omega
  | succ f ih =>
    intro n hn
    by_cases h10 : n < 10
    · refine ⟨by simp [natToDigitsGo, h10], ?_, ?_⟩
      · intro c hc
        simp [natToDigitsGo, h10] at hc
        simp [hc, isDigit]
        omega
      · simp [natToDigitsGo, h10, digitsToNat]
    · have hdiv : n / 10 < f := by omega
      obtain ⟨hne, hdig, hval⟩ := ih (n / 10) hdiv
      refine ⟨by simp [natToDigitsGo, h10], ?_, ?_⟩
      · intro c hc
        simp only [natToDigitsGo, if_neg h10, List.mem_append, List.mem_singleton] at hc
        rcases hc with hc | hc
        · exact hdig c hc
        · simp [hc, isDigit]
          omega
      · simp only [natToDigitsGo, if_neg h10]
        rw [digitsToNat_append, hval]
        omega

theorem natToDigits_ne_nil (n : Nat) : natToDigits n ≠ [] :=
  (natToDigitsGo_spec (n + 1) n (Nat.lt_succ_self n)).1

theorem natToDigits_all_digits (n : Nat) : ∀ c ∈ natToDigits n, isDigit c = true :=
  (natToDigitsGo_spec (n + 1) n (Nat.lt_succ_self n)).2.1

theorem digitsToNat_natToDigits (n : Nat) : digitsToNat (natToDigits n) = n :=
  (natToDigitsGo_spec (n + 1) n (Nat.lt_succ_self n)).2.2

theorem parseNatDigits_natToDigits (n : Nat) : parseNatDigits (natToDigits n) = some n := by
  have h1 := natToDigits_ne_nil n
  have h2 := natToDigits_all_digits n
  simp only [parseNatDigits]
  rw [if_pos]
  · rw [digitsToNat_natToDigits]
  · simp only [Bool.and_eq_true, decide_eq_true_eq, List.all_eq_true]
    exact ⟨h1, fun c hc => h2 c hc⟩

theorem natToDigits_head_not_sign (n : Nat) :
    ∀ c t, natToDigits n = c :: t → c ≠ 45 ∧ c ≠ 43 ∧ c ≠ 13 ∧ c ≠ 42 := by
  intro c t h
  have := natToDigits_all_digits n c (by rw [h]; exact List.mem_cons_self c t)
  simp [isDigit] at this
  omega

theorem natToDigits_not_mem (n : Nat) :
    (45 : Nat) ∉ natToDigits n ∧ (13 : Nat) ∉ natToDigits n := by
  constructor <;>
    · intro h
      have := natToDigits_all_digits n _ h
      simp [isDigit] at this

theorem parseU64_natToDigits (n : Nat) (h : n < 2 ^ 64) :
    parseU64 (natToDigits n) = some n := by
  rcases hd : natToDigits n with _ | ⟨c, t⟩
  · exact absurd hd (natToDigits_ne_nil n)
  · obtain ⟨h45, h43, -, -⟩ := natToDigits_head_not_sign n c t hd
    simp only [parseU64, if_neg h43]
    rw [← hd, parseNatDigits_natToDigits]
    simp only [Option.some_bind]
    rw [if_pos (by omega)]

theorem parseI64_natToDigits (n : Nat) (h : n < 2 ^ 63) :
    parseI64 (natToDigits n) = some ((n : Int)) := by
  rcases hd : natToDigits n with _ | ⟨c, t⟩
  · exact absurd hd (natToDigits_ne_nil n)
  · obtain ⟨h45, h43, -, -⟩ := natToDigits_head_not_sign n c t hd
    simp only [parseI64, if_neg h45, if_neg h43]
    rw [← hd, parseNatDigits_natToDigits]
    simp only [Option.some_bind]
    rw [if_pos (by omega)]

theorem parseI64_intToDigits (n : Int) (h1 : -(2 ^ 63) ≤ n) (h2 : n < 2 ^ 63) :
    parseI64 (intToDigits n) = some n := by
  by_cases hn : n < 0
  · have hle : n.natAbs ≤ 2 ^ 63 := by omega
    have hval : -((n.natAbs : Int)) = n := by omega
    simp only [intToDigits, if_pos hn, parseI64, if_true]
    rw [parseNatDigits_natToDigits]
    simp only [Option.some_bind]
    rw [if_pos hle, hval]
  · have hlt : n.toNat < 2 ^ 63 := by omega
    have hval : ((n.toNat : Int)) = n := by omega
    simp only [intToDigits, if_neg hn]
    rw [parseI64_natToDigits _ hlt, hval]

/-! ## UTF-8 encode/decode -/

theorem utf8Decode_encodeChar (c : Nat) (h : validScalar c = true) (rest : List Nat) :
    utf8Decode (utf8EncodeChar c ++ rest) = (utf8Decode rest).map (c :: ·) := by
  simp only [validScalar, Bool.or_eq_true, Bool.and_eq_true, decide_eq_true_eq] at h
  by_cases h1 : c < 0x80
  · simp only [utf8EncodeChar, if_pos h1, List.cons_append, List.nil_append, utf8Decode,
      if_pos h1]
  · by_cases h2 : c < 0x800
    · have e1 : ¬ (0xC0 + c / 64 < 0x80) := by omega
      have e2 : ¬ (0xC0 + c / 64 < 0xC2) := by omega
      have e3 : 0xC0 + c / 64 < 0xE0 := by omega
      have e4 : isCont (0x80 + c % 64) = true := by simp [isCont]; omega
      have hv : (0xC0 + c / 64 - 0xC0) * 64 + (0x80 + c % 64 - 0x80) = c := by omega
      simp only [utf8EncodeChar, if_neg h1, if_pos h2, List.cons_append, List.nil_append]
      simp only [utf8Decode, if_neg e1, if_neg e2, if_pos e3]
      simp only [utf8Dec2, e4, if_true, hv]
    · by_cases h3 : c < 0x10000
      · have e1 : ¬ (0xE0 + c / 4096 < 0x80) := by omega
        have e2 : ¬ (0xE0 + c / 4096 < 0xC2) := by omega
        have e3 : ¬ (0xE0 + c / 4096 < 0xE0) := by omega
        have e4 : 0xE0 + c / 4096 < 0xF0 := by omega
        have hv : (0xE0 + c / 4096 - 0xE0) * 4096 + (0x80 + c / 64 % 64 - 0x80) * 64 +
            (0x80 + c % 64 - 0x80) = c := by
          have m1 := Nat.div_add_mod c 64
          have m2 := Nat.div_add_mod (c / 64) 64
          have hdd : c / 64 / 64 = c / 4096 := by rw [Nat.div_div_eq_div_mul]
          omega
        have hcond : (isCont (0x80 + c / 64 % 64) && isCont (0x80 + c % 64) &&
            decide (0x800 ≤ c) && !(decide (0xD800 ≤ c) && decide (c ≤ 0xDFFF))) = true := by
          simp [isCont]
          omega
        simp only [utf8EncodeChar, if_neg h1, if_neg h2, if_pos h3, List.cons_append,
          List.nil_append]
        simp only [utf8Decode, if_neg e1, if_neg e2, if_neg e3, if_pos e4]
        simp only [utf8Dec3, hv, hcond, if_true]
      · have h4 : c < 0x110000 := by omega
        have e1 : ¬ (0xF0 + c / 0x40000 < 0x80) := by omega
        have e2 : ¬ (0xF0 + c / 0x40000 < 0xC2) := by omega
        have e3 : ¬ (0xF0 + c / 0x40000 < 0xE0) := by omega
        have e4 : ¬ (0xF0 + c / 0x40000 < 0xF0) := by omega
        have e5 : 0xF0 + c / 0x40000 < 0xF5 := by omega
        have hv : (0xF0 + c / 0x40000 - 0xF0) * 0x40000 + (0x80 + c / 4096 % 64 - 0x80) * 4096 +
            (0x80 + c / 64 % 64 - 0x80) * 64 + (0x80 + c % 64 - 0x80) = c := by
          have m1 := Nat.div_add_mod c 64
          have m2 := Nat.div_add_mod (c / 64) 64
          have m3 := Nat.div_add_mod (c / 4096) 64
          have hd1 : c / 64 / 64 = c / 4096 := by rw [Nat.div_div_eq_div_mul]
          have hd2 : c / 4096 / 64 = c / 0x40000 := by rw [Nat.div_div_eq_div_mul]
          omega
        have hcond : (isCont (0x80 + c / 4096 % 64) && isCont (0x80 + c / 64 % 64) &&
            isCont (0x80 + c % 64) && decide (0x10000 ≤ c) && decide (c < 0x110000)) = true := by
          simp [isCont]
          omega
        simp only [utf8EncodeChar, if_neg h1, if_neg h2, if_neg h3, List.cons_append,
          List.nil_append]
        simp only [utf8Decode, if_neg e1, if_neg e2, if_neg e3, if_neg e4, if_pos e5]
        simp only [utf8Dec4, hv, hcond, if_true]

theorem utf8Decode_encode (s : RStr) (h : validStr s = true) :
    utf8Decode (utf8Encode s) = some s := by
  induction s with
  | nil => rfl
  | cons c s ih =>
    simp only [validStr, List.all_cons, Bool.and_eq_true] at h
    have hc : utf8Encode (c :: s) = utf8EncodeChar c ++ utf8Encode s := by simp [utf8Encode]
    rw [hc, utf8Decode_encodeChar c h.1, ih h.2]
    rfl

theorem utf8Encode_ascii (s : RStr) (h : allAscii s = true) : utf8Encode s = s := by
  induction s with
  | nil => rfl
  | cons c s ih =>
    simp only [allAscii, List.all_cons, Bool.and_eq_true, decide_eq_true_eq] at h
    have hc : utf8EncodeChar c = [c] := by rw [utf8EncodeChar, if_pos h.1]
    have hstep : utf8Encode (c :: s) = utf8EncodeChar c ++ utf8Encode s := by simp [utf8Encode]
    rw [hstep, hc, ih h.2]
    rfl

theorem validStr_of_ascii (s : RStr) (h : allAscii s = true) : validStr s = true := by
  simp only [allAscii, List.all_eq_true, decide_eq_true_eq] at h
  simp only [validStr, List.all_eq_true, validScalar, Bool.or_eq_true, Bool.and_eq_true,
    decide_eq_true_eq]
  intro c hc
  exact Or.inl (by have := h c hc; omega)

theorem utf8Decode_ascii (s : RStr) (h : allAscii s = true) : utf8Decode s = some s := by
  have hd := utf8Decode_encode s (validStr_of_ascii s h)
  rwa [utf8Encode_ascii s h] at hd

theorem natToDigits_ascii (n : Nat) : allAscii (natToDigits n) = true := by
  simp only [allAscii, List.all_eq_true, decide_eq_true_eq]
  intro c hc
  have := natToDigits_all_digits n c hc
  simp [isDigit] at this
  omega

/-! ## `read_until_crlf` -/

theorem noCRLF_tail (a : Nat) (l : List Nat) (h : noCRLF (a :: l) = true) :
    noCRLF l = true := by
  cases l with
  | nil => rfl
  | cons b t =>
    simp only [noCRLF, Bool.and_eq_true] at h
    exact h.2

theorem noCRLF_of_not_mem (l : List Nat) (h : (13 : Nat) ∉ l) : noCRLF l = true := by
  induction l with
  | nil => rfl
  | cons a t ih =>
    cases t with
    | nil => rfl
    | cons b t2 =>
      simp only [noCRLF, Bool.and_eq_true, Bool.not_eq_true', Bool.and_eq_false_iff,
        decide_eq_false_iff_not]
      refine ⟨Or.inl ?_, ih ?_⟩
      · intro ha; exact h (ha ▸ List.mem_cons_self a _)
      · intro hm; exact h (List.mem_cons_of_mem a hm)

theorem read_until_crlf_append (line : List Nat) (t : List Nat) (h : noCRLF line = true) :
    read_until_crlf (line ++ 13 :: 10 :: t) = some (line, line.length + 2) := by
  induction line with
  | nil => simp [read_until_crlf]
  | cons c line ih =>
    cases line with
    | nil => simp [read_until_crlf]
    | cons d line2 =>
      simp only [noCRLF, Bool.and_eq_true, Bool.not_eq_true', Bool.and_eq_false_iff,
        decide_eq_false_iff_not] at h
      have hcd : ¬ (c = 13 ∧ d = 10) := by
        rcases h.1 with h1 | h1
        · exact fun hc => h1 hc.1
        · exact fun hc => h1 hc.2
      have ih2 := ih (by
        simpa only [noCRLF, Bool.and_eq_true, Bool.not_eq_true', Bool.and_eq_false_iff,
          decide_eq_false_iff_not] using h.2)
      simp only [List.cons_append] at ih2 ⊢
      rw [read_until_crlf, if_neg hcd, ih2]
      simp

/-! ## Serialization shape facts -/

theorem serialize_length_pos (m : Message) : 1 ≤ (Message.serialize m).length := by
  cases m <;> simp [Message.serialize]

theorem serializeList_cons (m : Message) (ms : List Message) :
    serializeList (m :: ms) = Message.serialize m ++ serializeList ms := by
  simp [serializeList]

theorem wfList_cons (m : Message) (ms : List Message) (h : wfList (m :: ms) = true) :
    wfMessage m = true ∧ wfList ms = true := by
  simpa only [wfList, Bool.and_eq_true] using h

/-! ## Parser round-trip -/

theorem parseGo_zero (j : PJob) : parseGo 0 j = .panic := rfl

theorem parseGo_msg_nil (fuel : Nat) : parseGo (fuel + 1) (.msg []) = .panic := rfl

theorem parseGo_msg_plus (fuel : Nat) (bytes : List Nat) :
    parseGo (fuel + 1) (.msg (43 :: bytes)) = parse_simple_string (43 :: bytes) := by
  simp [parseGo]

theorem parseGo_msg_colon (fuel : Nat) (bytes : List Nat) :
    parseGo (fuel + 1) (.msg (58 :: bytes)) = parse_integer (58 :: bytes) := by
  simp [parseGo]

theorem parseGo_msg_dollar (fuel : Nat) (bytes : List Nat) :
    parseGo (fuel + 1) (.msg (36 :: bytes)) = parse_bulk_string (36 :: bytes) := by
  simp [parseGo]

theorem parseGo_msg_star (fuel : Nat) (bytes : List Nat) :
    parseGo (fuel + 1) (.msg (42 :: bytes)) =
      match read_until_crlf bytes with
      | none => .err
      | some (line, len) =>
        match parse_int line with
        | none => .panic
        | some n => parseGo fuel (.loop (42 :: bytes) n.toNat (len + 1) []) := by
  simp [parseGo]

theorem parseGo_msg_other (fuel b : Nat) (bytes : List Nat) (h42 : b ≠ 42) (h43 : b ≠ 43)
    (h58 : b ≠ 58) (h36 : b ≠ 36) : parseGo (fuel + 1) (.msg (b :: bytes)) = .err := by
  simp [parseGo, h42, h43, h58, h36]

theorem parseGo_loop_zero (fuel bc : Nat) (bytes : List Nat) (items : List Message) :
    parseGo (fuel + 1) (.loop bytes 0 bc items) = .ok (.array items.reverse, bc) := rfl

theorem parseGo_loop_succ (fuel n bc : Nat) (bytes : List Nat) (items : List Message) :
    parseGo (fuel + 1) (.loop bytes (n + 1) bc items) =
      match parseGo fuel (.msg (bytes.drop bc)) with
      | .ok (item, l) => parseGo fuel (.loop bytes n (bc + l) (item :: items))
      | .err => .err
      | .panic => .panic := rfl

theorem intToDigits_ascii (n : Int) : allAscii (intToDigits n) = true := by
  unfold intToDigits
  by_cases hn : n < 0
  · rw [if_pos hn]
    have := natToDigits_ascii n.natAbs
    simp only [allAscii, List.all_cons, Bool.and_eq_true, decide_eq_true_eq] at *
    exact ⟨by omega, this⟩
  · rw [if_neg hn]; exact natToDigits_ascii n.toNat

theorem intToDigits_noCRLF (n : Int) : noCRLF (intToDigits n) = true := by
  apply noCRLF_of_not_mem
  unfold intToDigits
  by_cases hn : n < 0
  · rw [if_pos hn]
    intro hm
    rcases List.mem_cons.mp hm with h | h
    · omega
    · exact (natToDigits_not_mem n.natAbs).2 h
  · rw [if_neg hn]; exact (natToDigits_not_mem n.toNat).2

theorem natToDigits_noCRLF (n : Nat) : noCRLF (natToDigits n) = true :=
  noCRLF_of_not_mem _ (natToDigits_not_mem n).2

theorem parse_int_natToDigits (n : Nat) (h : n < 2 ^ 63) :
    parse_int (natToDigits n) = some ((n : Int)) := by
  rw [parse_int, utf8Decode_ascii _ (natToDigits_ascii _), Option.some_bind,
    parseI64_natToDigits n h]

theorem parse_bulk_string_eq (bytes line : List Nat) (len : Nat) (strLen : Int)
    (h1 : read_until_crlf bytes.tail = some (line, len))
    (h2 : parse_int line = some strLen) :
    parse_bulk_string bytes =
      (if strLen < 0 then .panic
      else if bytes.length < len + 1 + strLen.toNat then .panic
      else
        match utf8Decode ((bytes.drop (len + 1)).take strLen.toNat) with
        | some s => .ok (.bulkString s, len + 1 + strLen.toNat + 2)
        | none => .err) := by
  unfold parse_bulk_string
  rw [h1]
  show (match parse_int line with
    | none => PResult.panic
    | some strLen =>
      if strLen < 0 then PResult.panic
      else if bytes.length < len + 1 + strLen.toNat then PResult.panic
      else
        match utf8Decode ((bytes.drop (len + 1)).take strLen.toNat) with
        | some s => PResult.ok (Message.bulkString s, len + 1 + strLen.toNat + 2)
        | none => PResult.err) = _
  rw [h2]

theorem parseGo_msg_star_eq (fuel : Nat) (bytes line : List Nat) (len : Nat) (n : Int)
    (h1 : read_until_crlf bytes = some (line, len))
    (h2 : parse_int line = some n) :
    parseGo (fuel + 1) (.msg (42 :: bytes)) =
      parseGo fuel (.loop (42 :: bytes) n.toNat (len + 1) []) := by
  rw [parseGo_msg_star, h1]
  show (match parse_int line with
    | none => PResult.panic
    | some n => parseGo fuel (.loop (42 :: bytes) n.toNat (len + 1) [])) = _
  rw [h2]

theorem parseGo_serialize (fuel : Nat) :
    (∀ bytes todo acc bc rest2, wfList todo = true →
      bytes.drop bc = serializeList todo ++ rest2 →
      (serializeList todo).length + 1 ≤ fuel →
      parseGo fuel (.loop bytes todo.length bc acc) =
        .ok (.array (acc.reverse ++ todo), bc + (serializeList todo).length))
    ∧ (∀ M rest, wfMessage M = true → (Message.serialize M).length ≤ fuel + 2 →
      parseGo (fuel + 1) (.msg (Message.serialize M ++ rest)) =
        .ok (M, (Message.serialize M).length)) := by
  induction fuel using Nat.strong_induction_on with
  | _ fuel ih =>
  have hB : ∀ bytes todo acc bc rest2, wfList todo = true →
      bytes.drop bc = serializeList todo ++ rest2 →
      (serializeList todo).length + 1 ≤ fuel →
      parseGo fuel (.loop bytes todo.length bc acc) =
        .ok (.array (acc.reverse ++ todo), bc + (serializeList todo).length) := by
    intro bytes todo acc bc rest2 hwf hdrop hfuel
    cases todo with
    | nil =>
      cases fuel with
      | zero => simp [serializeList] at hfuel
      | succ g => simp [parseGo_loop_zero, serializeList]
    | cons m ms =>
      obtain ⟨hwfm, hwfms⟩ := wfList_cons m ms hwf
      have hm1 := serialize_length_pos m
      rw [serializeList_cons] at hfuel hdrop
      simp only [List.length_append] at hfuel
      cases fuel with
      | zero => omega
      | succ g =>
        obtain ⟨g1, rfl⟩ : ∃ g1, g = g1 + 1 := ⟨g - 1, by omega⟩
        rw [List.append_assoc] at hdrop
        have hmsg := (ih g1 (by omega)).2 m (serializeList ms ++ rest2) hwfm (by omega)
        rw [← hdrop] at hmsg
        have hdrop2 : bytes.drop (bc + (Message.serialize m).length) =
            serializeList ms ++ rest2 := by
          rw [← List.drop_drop, hdrop, List.drop_left]
        have hloop := (ih (g1 + 1) (by omega)).1 bytes ms (m :: acc)
          (bc + (Message.serialize m).length) rest2 hwfms hdrop2 (by omega)
        have harr : (m :: acc).reverse ++ ms = acc.reverse ++ m :: ms := by simp
        have hnum : bc + (Message.serialize m).length + (serializeList ms).length =
            bc + (serializeList (m :: ms)).length := by
          rw [serializeList_cons, List.length_append]; omega
        have h2 : (PResult.ok (Message.array ((m :: acc).reverse ++ ms),
            bc + (Message.serialize m).length + (serializeList ms).length)
              : PResult (Message × Nat)) =
            .ok (.array (acc.reverse ++ m :: ms), bc + (serializeList (m :: ms)).length) := by
          rw [harr, hnum]
        simp only [List.length_cons]
        rw [parseGo_loop_succ, hmsg]
        exact hloop.trans h2
  refine ⟨hB, ?_⟩
  intro M rest hwf hlen
  cases M with
  | error s => simp [wfMessage] at hwf
  | null => simp [wfMessage] at hwf
  | simpleString s =>
    simp only [wfMessage, Bool.and_eq_true] at hwf
    have henc := utf8Decode_encode s hwf.1
    simp only [Message.serialize, List.cons_append, List.append_assoc, List.nil_append]
    rw [parseGo_msg_plus]
    simp only [parse_simple_string, List.tail_cons, read_until_crlf_append _ _ hwf.2, henc]
    simp [List.length_append]
  | integer n =>
    simp only [wfMessage, Bool.and_eq_true, decide_eq_true_eq] at hwf
    simp only [Message.serialize, List.cons_append, List.append_assoc, List.nil_append]
    rw [parseGo_msg_colon]
    simp only [parse_integer, List.tail_cons, read_until_crlf_append _ _ (intToDigits_noCRLF n),
      utf8Decode_ascii _ (intToDigits_ascii n), parseI64_intToDigits n hwf.1 hwf.2]
    simp [List.length_append]
  | bulkString s =>
    simp only [wfMessage, Bool.and_eq_true, decide_eq_true_eq] at hwf
    obtain ⟨hasc, hslen⟩ := hwf
    have hencA : utf8Encode s = s := utf8Encode_ascii s hasc
    have hdecS : utf8Decode s = some s := utf8Decode_ascii s hasc
    simp only [Message.serialize, hencA, List.cons_append, List.append_assoc, List.nil_append]
    rw [parseGo_msg_dollar]
    rw [parse_bulk_string_eq _ (natToDigits s.length) ((natToDigits s.length).length + 2)
      ((s.length : Int))
      (by
        rw [List.tail_cons]
        exact read_until_crlf_append _ _ (natToDigits_noCRLF s.length))
      (parse_int_natToDigits s.length hslen)]
    rw [if_neg (show ¬ ((s.length : Int) < 0) by omega)]
    rw [Int.toNat_natCast]
    rw [if_neg (show ¬ ((36 :: (natToDigits s.length ++
        13 :: 10 :: (s ++ 13 :: 10 :: rest))).length <
        (natToDigits s.length).length + 2 + 1 + s.length) by
      simp [List.length_append]
      omega)]
    have hsplit : 36 :: (natToDigits s.length ++ 13 :: 10 :: (s ++ 13 :: 10 :: rest)) =
        ((36 :: natToDigits s.length) ++ [13, 10]) ++ (s ++ 13 :: 10 :: rest) := by
      simp
    have hdroplen : (natToDigits s.length).length + 2 + 1 =
        ((36 :: natToDigits s.length) ++ [13, 10]).length := by
      simp [List.length_append]
    rw [hsplit, hdroplen, List.drop_left]
    rw [show (s ++ 13 :: 10 :: rest).take s.length = s from by
      have := List.take_left s (13 :: 10 :: rest)
      exact this]
    rw [hdecS]
    simp [List.length_append]
    omega
  | array items =>
    simp only [wfMessage, Bool.and_eq_true, decide_eq_true_eq] at hwf
    obtain ⟨hcnt, hwfl⟩ := hwf
    have hdl : 1 ≤ (natToDigits items.length).length :=
      List.length_pos.mpr (natToDigits_ne_nil _)
    simp only [Message.serialize, List.length_append] at hlen
    simp only [Message.serialize, List.cons_append, List.append_assoc, List.nil_append]
    rw [parseGo_msg_star_eq fuel _ (natToDigits items.length)
      ((natToDigits items.length).length + 2) ((items.length : Int))
      (read_until_crlf_append _ _ (natToDigits_noCRLF items.length))
      (parse_int_natToDigits items.length (by omega))]
    rw [Int.toNat_natCast]
    have hsplit : (42 : Nat) :: (natToDigits items.length ++
        13 :: 10 :: (serializeList items ++ rest)) =
        ((42 :: natToDigits items.length) ++ [13, 10]) ++ (serializeList items ++ rest) := by
      simp
    have hdrop : ((42 : Nat) :: (natToDigits items.length ++
        13 :: 10 :: (serializeList items ++ rest))).drop
          ((natToDigits items.length).length + 2 + 1) = serializeList items ++ rest := by
      rw [hsplit]
      rw [show (natToDigits items.length).length + 2 + 1 =
        ((42 :: natToDigits items.length) ++ [13, 10]).length from by
          simp [List.length_append]]
      exact List.drop_left _ _
    have hloop := hB ((42 : Nat) :: (natToDigits items.length ++
        13 :: 10 :: (serializeList items ++ rest))) items []
      ((natToDigits items.length).length + 2 + 1) rest hwfl hdrop
      (by
        simp only [List.length_cons, List.length_append] at hlen
        omega)
    rw [hloop]
    simp [List.length_append]
    omega

/-! ## HashMap-content lemmas -/

theorem hmLookup_insert_self {β : Type} (l : List (RStr × β)) (k : RStr) (v : β) :
    hmLookup (hmInsert l k v) k = some v := by
  induction l with
  | nil => simp [hmInsert, hmLookup]
  | cons p rest ih =>
    rcases p with ⟨k1, v1⟩
    by_cases hk : k1 = k
    · simp [hmInsert, hmLookup, hk]
    · simp [hmInsert, hmLookup, hk, ih]

theorem hmLookup_insert_other {β : Type} (l : List (RStr × β)) (k q : RStr) (v : β)
    (h : q ≠ k) : hmLookup (hmInsert l k v) q = hmLookup l q := by
  induction l with
  | nil =>
    simp [hmInsert, hmLookup]
    intro hh
    exact absurd hh.symm h
  | cons p rest ih =>
    rcases p with ⟨k1, v1⟩
    by_cases hk : k1 = k
    · subst hk
      have : ¬ (k1 = q) := fun hh => h (hh.symm)
      simp [hmInsert, hmLookup, this]
    · by_cases hq : k1 = q
      · simp [hmInsert, hmLookup, hk, hq, h]
      · simp [hmInsert, hmLookup, hk, hq, ih]

theorem mem_hmInsert {β : Type} (l : List (RStr × β)) (k : RStr) (v : β) (p : RStr × β)
    (h : p ∈ hmInsert l k v) : p = (k, v) ∨ p ∈ l := by
  induction l with
  | nil => simpa [hmInsert] using h
  | cons q rest ih =>
    rcases q with ⟨k1, v1⟩
    by_cases hk : k1 = k
    · simp only [hmInsert, if_pos hk, List.mem_cons] at h
      rcases h with h | h
      · exact Or.inl h
      · exact Or.inr (List.mem_cons_of_mem _ h)
    · simp only [hmInsert, if_neg hk, List.mem_cons] at h
      rcases h with h | h
      · exact Or.inr (h ▸ List.mem_cons_self _ _)
      · rcases ih h with h2 | h2
        · exact Or.inl h2
        · exact Or.inr (List.mem_cons_of_mem _ h2)

theorem hmLookup_mem {β : Type} (l : List (RStr × β)) (k : RStr) (v : β)
    (h : hmLookup l k = some v) : (k, v) ∈ l := by
  induction l with
  | nil => simp [hmLookup] at h
  | cons p rest ih =>
    rcases p with ⟨k1, v1⟩
    by_cases hk : k1 = k
    · subst hk
      have hv : hmLookup ((k1, v1) :: rest) k1 = some v1 := by simp [hmLookup]
      rw [hv] at h
      injection h with h2
      subst h2
      exact List.mem_cons_self _ _
    · simp only [hmLookup, if_neg hk] at h
      exact List.mem_cons_of_mem _ (ih h)

theorem mem_keys_hmInsert {β : Type} (l : List (RStr × β)) (k : RStr) (v : β) :
    k ∈ (hmInsert l k v).map Prod.fst := by
  induction l with
  | nil => simp [hmInsert]
  | cons p rest ih =>
    rcases p with ⟨k1, v1⟩
    by_cases hk : k1 = k
    · simp [hmInsert, hk]
    · simp only [hmInsert, if_neg hk, List.map_cons, List.mem_cons]
      exact Or.inr ih

/-! ## XADD: stream ids stay strictly increasing (C4 machinery) -/

theorem validate_ok_lt (st : Store) (key id : RStr) (s : Stream) (lastId : StreamId)
    (sid : StreamId)
    (hs : st.get_stream key = some s)
    (hl : (s.entries.map Prod.fst).getLast? = some lastId)
    (hid : streamIdFrom id = some sid)
    (hok : st.validate_stream_id key id = .ok) :
    StreamId.lt lastId sid := by
  unfold Store.validate_stream_id at hok
  rw [hs] at hok
  simp only [] at hok
  rw [hl] at hok
  unfold streamIdFrom at hid
  rcases hsp : splitOnce 45 id with _ | ⟨msS, seqS⟩
  · rw [hsp] at hid; exact absurd hid (by simp)
  · rw [hsp] at hok hid
    have hid2 : (match parseU64 msS, parseU64 seqS with
        | some ms, some seq => some (⟨ms, seq⟩ : StreamId)
        | _, _ => none) = some sid := hid
    have hok2 : (match parseU64 msS, parseU64 seqS with
        | some curMs, some curSeq =>
          if curMs = 0 ∧ curSeq = 0 then
            SResult.err ("ERR The ID specified in XADD must be greater than 0-0")
          else if curMs < lastId.ms then
            SResult.err
              ("ERR The ID specified in XADD is equal or smaller than the target stream top item")
          else if curMs = lastId.ms ∧ curSeq ≤ lastId.seq then
            SResult.err
              ("ERR The ID specified in XADD is equal or smaller than the target stream top item")
          else SResult.ok
        | _, _ => SResult.panic) = SResult.ok := hok
    rcases hms : parseU64 msS with _ | ms
    · rw [hms] at hid2
      have hfalse : (none : Option StreamId) = some sid := hid2
      exact absurd hfalse (by simp)
    rcases hseq : parseU64 seqS with _ | seq
    · rw [hms, hseq] at hid2
      have hfalse : (none : Option StreamId) = some sid := hid2
      exact absurd hfalse (by simp)
    rw [hms, hseq] at hid2 hok2
    have hid3 : some (⟨ms, seq⟩ : StreamId) = some sid := hid2
    injection hid3 with hid4
    subst hid4
    have hok3 : (if ms = 0 ∧ seq = 0 then
        SResult.err ("ERR The ID specified in XADD must be greater than 0-0")
      else if ms < lastId.ms then
        SResult.err
          ("ERR The ID specified in XADD is equal or smaller than the target stream top item")
      else if ms = lastId.ms ∧ seq ≤ lastId.seq then
        SResult.err
          ("ERR The ID specified in XADD is equal or smaller than the target stream top item")
      else SResult.ok) = SResult.ok := hok2
    by_cases h00 : ms = 0 ∧ seq = 0
    · rw [if_pos h00] at hok3; exact absurd hok3 (by simp)
    rw [if_neg h00] at hok3
    by_cases hlt : ms < lastId.ms
    · rw [if_pos hlt] at hok3; exact absurd hok3 (by simp)
    rw [if_neg hlt] at hok3
    by_cases hle : ms = lastId.ms ∧ seq ≤ lastId.seq
    · rw [if_pos hle] at hok3; exact absurd hok3 (by simp)
    unfold StreamId.lt
    simp only []
    omega

theorem chain_append_last {α : Type} (R : α → α → Prop) (l : List α) (x : α)
    (hc : List.Chain' R l) (hlast : ∀ a, l.getLast? = some a → R a x) :
    List.Chain' R (l ++ [x]) := by
  rw [List.chain'_append]
  refine ⟨hc, List.chain'_singleton x, ?_⟩
  intro a ha y hy
  simp only [List.head?_cons, Option.mem_def, Option.some.injEq] at hy
  subst hy
  exact hlast a ha

theorem storeStreamsSorted_insert (st : Store) (key : RStr) (item : StoreItem)
    (h : storeStreamsSorted st)
    (hitem : ∀ s : Stream, item = .stream s → List.Chain' StreamId.lt (s.entries.map Prod.fst)) :
    storeStreamsSorted ⟨hmInsert st.data key item⟩ := by
  intro p hp s hs
  rcases mem_hmInsert st.data key item p hp with h1 | h1
  · exact hitem s (by rw [← hs, h1])
  · exact h p h1 s hs

theorem ite_pair_fst {α β : Type} (c : Prop) [Decidable c] (x : α) (a b : β) :
    (if c then (x, a) else (x, b)).1 = x := by
  split <;> rfl

theorem append_preserves (st : Store) (key id : RStr) (d : StreamData)
    (h : storeStreamsSorted st)
    (hval : st.validate_stream_id key id = .ok) :
    storeStreamsSorted (st.append_stream_value key id d).1 := by
  unfold Store.append_stream_value
  rcases hid : streamIdFrom id with _ | sid
  · rcases hgs : st.get_stream key with _ | s
    · simp only [hgs]
      exact storeStreamsSorted_insert st key (.stream ⟨[]⟩) h
        (by intro s1 hs1; injection hs1 with h2; subst h2; simp)
    · simp only [hgs]
      exact h
  · rcases hgs : st.get_stream key with _ | s
    · simp only [hgs]
      exact storeStreamsSorted_insert ⟨hmInsert st.data key (.stream ⟨[]⟩)⟩ key
        (.stream ⟨[] ++ [(sid, d)]⟩)
        (storeStreamsSorted_insert st key (.stream ⟨[]⟩) h
          (by intro s1 hs1; injection hs1 with h2; subst h2; simp))
        (by intro s1 hs1; injection hs1 with h2; subst h2; simp)
    · simp only [hgs]
      apply storeStreamsSorted_insert st key (.stream ⟨s.entries ++ [(sid, d)]⟩) h
      intro s1 hs1
      injection hs1 with h2
      subst h2
      simp only [List.map_append, List.map_cons, List.map_nil]
      apply chain_append_last
      · have hmem : (key, StoreItem.stream s) ∈ st.data := by
          unfold Store.get_stream at hgs
          rcases hlk : hmLookup st.data key with _ | item
          · rw [hlk] at hgs; exact absurd hgs (by simp)
          · rw [hlk] at hgs
            rcases item with e | s2
            · exact absurd hgs (by simp)
            · simp only [Option.some.injEq] at hgs
              subst hgs
              exact hmLookup_mem _ _ _ hlk
        exact h (key, StoreItem.stream s) hmem s rfl
      · intro a ha
        exact validate_ok_lt st key id s a sid hgs ha hid hval

theorem xaddStep_preserves (now : Nat) (st : Store) (key idP : RStr) (d : StreamData)
    (h : storeStreamsSorted st) :
    storeStreamsSorted (xaddStep now st key idP d).1 := by
  unfold xaddStep
  split
  · exact h
  · exact h
  · split
    · exact h
    · exact h
    · dsimp only
      rw [ite_pair_fst]
      exact append_preserves st key _ d h (by assumption)

theorem xaddRun_sorted (now : Nat) (ops : List (RStr × RStr × StreamData)) :
    ∀ st : Store, storeStreamsSorted st → storeStreamsSorted (xaddRun now ops st) := by
  induction ops with
  | nil => intro st h; exact h
  | cons op rest ih =>
    intro st h
    exact ih _ (xaddStep_preserves now st op.1 op.2.1 op.2.2 h)

theorem storeStreamsSorted_new : storeStreamsSorted Store.new := by
  intro p hp
  simp [Store.new] at hp

theorem splitOnce_append (sep : Nat) (a b : RStr) (h : sep ∉ a) :
    splitOnce sep (a ++ sep :: b) = some (a, b) := by
  induction a with
  | nil => simp [splitOnce]
  | cons c t ih =>
    have hc : c ≠ sep := fun hh => h (hh ▸ List.mem_cons_self c t)
    have ht : sep ∉ t := fun hm => h (List.mem_cons_of_mem c hm)
    simp only [List.cons_append, splitOnce, if_neg hc, List.append_eq, ih ht]
    rfl

theorem build_stream_id_eval (now : Nat) (msS : RStr) (lastE : Option StreamId)
    (h1 : msS ≠ []) (h2 : (45 : Nat) ∉ msS) :
    build_stream_id now (msS ++ [45, 42]) lastE =
      .ok ((if msS = [42] then natToDigits now else msS) ++ 45 ::
        (match lastE with
         | some l =>
           if natToDigits l.ms = (if msS = [42] then natToDigits now else msS) then
             natToDigits (l.seq + 1)
           else if (if msS = [42] then natToDigits now else msS) = [48] then [49] else [48]
         | none =>
           if (if msS = [42] then natToDigits now else msS) = [48] then [49] else [48])) := by
  have hlen : ¬ ((msS ++ [45, 42]).length < 3) := by
    have := List.length_pos.mpr h1
    simp only [List.length_append, List.length_cons, List.length_nil]
    omega
  unfold build_stream_id
  rw [if_neg hlen]
  simp only [splitOnce_append 45 msS [42] h2]
  rcases lastE with _ | l
  · rfl
  · dsimp only
    by_cases hc : natToDigits l.ms = (if msS = [42] then natToDigits now else msS)
    · simp only [if_pos hc]
      rfl
    · simp only [if_neg hc]
      rfl

/-!
## Claim theorems
-/

/-- C1 (counterexample): the round-trip `parse(serialize(M))` fails on the
claimed domain.  A non-ASCII bulk string serializes with its scalar count as
length, so the parser slices mid-character and reports invalid UTF-8; `Null`
serializes as `$-1\r\n`, whose negative length makes the parser panic;
an `Error` value has no parser arm at all; a simple string containing CRLF
re-parses to a different, shorter message (3 of its 6 bytes consumed). -/
theorem c1_roundtrip_counterexample :
    Message.parse (Message.serialize (.bulkString [233])) = .err ∧
    ¬ (Message.parse (Message.serialize (.bulkString [233])) =
        .ok (.bulkString [233], (Message.serialize (.bulkString [233])).length)) ∧
    Message.parse (Message.serialize .null) = .panic ∧
    Message.parse (Message.serialize (.error [])) = .err ∧
    Message.parse (Message.serialize (.simpleString [13, 10, 97])) =
      .ok (.simpleString [], 3) ∧
    (Message.serialize (.simpleString [13, 10, 97])).length = 6 := by
  refine ⟨rfl, ?_, rfl, rfl, rfl, rfl⟩
  intro hcontra
  rw [show Message.parse (Message.serialize (.bulkString [233])) = PResult.err from rfl]
    at hcontra
  exact PResult.noConfusion hcontra

/-- C1 (amended): for every message with no `Error` or `Null` constructor,
whose simple-string payloads are valid Unicode carrying no CRLF pair, whose
bulk-string payloads are ASCII, and whose integers and lengths fit `i64`,
parsing the serialization returns exactly the message together with the
serialization's byte length. -/
theorem c1_roundtrip_wellformed (M : Message) (h : wfMessage M = true) :
    Message.parse (Message.serialize M) = .ok (M, (Message.serialize M).length) := by
  have hmain := (parseGo_serialize (Message.serialize M).length).2 M [] h (by omega)
  rw [List.append_nil] at hmain
  unfold Message.parse
  exact hmain

theorem c1_roundtrip_wellformed_witness :
    wfMessage (.array [.bulkString [97], .integer (-5), .simpleString [79, 75]]) = true ∧
    Message.parse
        (Message.serialize (.array [.bulkString [97], .integer (-5), .simpleString [79, 75]])) =
      .ok (.array [.bulkString [97], .integer (-5), .simpleString [79, 75]],
        (Message.serialize
          (.array [.bulkString [97], .integer (-5), .simpleString [79, 75]])).length) :=
  ⟨rfl, c1_roundtrip_wellformed _ rfl⟩

/-- C2 (code bug, evaluated): serializing the one-scalar, two-byte bulk
string "é" writes `$1`, the scalar count, although the UTF-8 payload that
follows is two bytes long — the byte length the spec requires. -/
theorem c2_bulk_length_uses_scalar_count :
    Message.serialize (.bulkString [233]) = [36, 49, 13, 10, 195, 169, 13, 10] ∧
    (utf8Encode [233]).length = 2 ∧
    ([233] : RStr).length = 1 ∧
    natToDigits ([233] : RStr).length = [49] :=
  ⟨rfl, rfl, rfl, rfl⟩

/-- C3 (counterexample): on an empty buffer, a non-numeric bulk length
(`$xx`), and a truncated bulk payload (`$5\r\nab`), the parser panics
(out-of-bounds index or `unwrap`), instead of returning the error result the
claim asserts. -/
theorem c3_parse_panics_counterexample :
    Message.parse [] = .panic ∧
    Message.parse [36, 120, 120, 13, 10] = .panic ∧
    Message.parse [36, 53, 13, 10, 97, 98] = .panic ∧
    (PResult.panic : PResult (Message × Nat)) ≠ .err :=
  ⟨rfl, rfl, rfl, fun hcontra => PResult.noConfusion hcontra⟩

/-- C3 (amended): parsing is total in the model and, on malformed input,
returns an error result exactly for an unknown tag byte, a missing CRLF
after a recognized tag, or invalid UTF-8 in a simple string; it panics on an
empty buffer, on a non-numeric length after `*` or `$`, and on a bulk
payload declared past the end of the buffer. -/
theorem c3_parse_malformed_behavior (bytes : List Nat) :
    (bytes = [] → Message.parse bytes = .panic) ∧
    (∀ b rest, bytes = b :: rest → b ≠ 42 → b ≠ 43 → b ≠ 58 → b ≠ 36 →
      Message.parse bytes = .err) ∧
    (∀ b rest, bytes = b :: rest → (b = 42 ∨ b = 43 ∨ b = 58 ∨ b = 36) →
      read_until_crlf rest = none → Message.parse bytes = .err) ∧
    (∀ rest line len, bytes = 43 :: rest → read_until_crlf rest = some (line, len) →
      utf8Decode line = none → Message.parse bytes = .err) ∧
    (∀ b rest line len, bytes = b :: rest → (b = 42 ∨ b = 36) →
      read_until_crlf rest = some (line, len) → parse_int line = none →
      Message.parse bytes = .panic) ∧
    (∀ rest line len k, bytes = 36 :: rest → read_until_crlf rest = some (line, len) →
      parse_int line = some ((k : Nat) : Int) → bytes.length < len + 1 + k →
      Message.parse bytes = .panic) := by
  refine ⟨?_, ?_, ?_, ?_, ?_, ?_⟩
  · intro h; subst h; rfl
  · intro b rest hb h42 h43 h58 h36
    subst hb
    unfold Message.parse
    exact parseGo_msg_other _ b rest h42 h43 h58 h36
  · intro b rest hb htag hru
    subst hb
    unfold Message.parse
    rcases htag with h | h | h | h <;> subst h
    · rw [parseGo_msg_star, hru]
    · rw [parseGo_msg_plus]
      unfold parse_simple_string
      simp only [List.tail_cons]
      rw [hru]
    · rw [parseGo_msg_colon]
      unfold parse_integer
      simp only [List.tail_cons]
      rw [hru]
    · rw [parseGo_msg_dollar]
      unfold parse_bulk_string
      simp only [List.tail_cons]
      rw [hru]
  · intro rest line len hb hru hdec
    subst hb
    unfold Message.parse
    rw [parseGo_msg_plus]
    unfold parse_simple_string
    simp only [List.tail_cons]
    rw [hru]
    show (match utf8Decode line with
      | some s => PResult.ok (Message.simpleString s, len + 1)
      | none => PResult.err) = PResult.err
    rw [hdec]
  · intro b rest line len hb htag hru hpi
    subst hb
    unfold Message.parse
    rcases htag with h | h <;> subst h
    · rw [parseGo_msg_star, hru]
      show (match parse_int line with
        | none => PResult.panic
        | some n =>
          parseGo (rest.length + 1) (.loop (42 :: rest) n.toNat (len + 1) [])) = PResult.panic
      rw [hpi]
    · rw [parseGo_msg_dollar]
      unfold parse_bulk_string
      simp only [List.tail_cons]
      rw [hru]
      show (match parse_int line with
        | none => PResult.panic
        | some strLen =>
          if strLen < 0 then PResult.panic
          else if (36 :: rest).length < len + 1 + strLen.toNat then PResult.panic
          else
            match utf8Decode (((36 :: rest).drop (len + 1)).take strLen.toNat) with
            | some s => PResult.ok (Message.bulkString s, len + 1 + strLen.toNat + 2)
            | none => PResult.err) = PResult.panic
      rw [hpi]
  · intro rest line len k hb hru hpi hshort
    subst hb
    unfold Message.parse
    rw [parseGo_msg_dollar, parse_bulk_string_eq _ line len ((k : Nat) : Int)
      (by simpa only [List.tail_cons] using hru) hpi]
    rw [if_neg (show ¬ (((k : Nat) : Int) < 0) by omega), Int.toNat_natCast,
      if_pos hshort]

theorem c3_parse_malformed_behavior_witness :
    Message.parse [97] = .err ∧ Message.parse [] = .panic ∧
    Message.parse [43, 195, 13, 10] = .err :=
  ⟨(c3_parse_malformed_behavior [97]).2.1 97 [] rfl (by decide) (by decide) (by decide)
      (by decide),
   (c3_parse_malformed_behavior []).1 rfl,
   (c3_parse_malformed_behavior [43, 195, 13, 10]).2.2.2.1 [195, 13, 10] [195] 3 rfl rfl rfl⟩

/-- C4: running any sequence of XADD commands with fully-specified ids
through the dispatcher, starting from the empty store, leaves every stream's
id sequence strictly increasing in (ms, seq)-lexicographic order. -/
theorem c4_xadd_streams_strictly_increasing (now : Nat)
    (ops : List (RStr × RStr × StreamData))
    (hops : ∀ op ∈ ops, fullySpecifiedId op.2.1 = true) :
    storeStreamsSorted (xaddRun now ops Store.new) :=
  xaddRun_sorted now ops Store.new storeStreamsSorted_new

theorem c4_xadd_streams_strictly_increasing_witness :
    (∀ op ∈ [((str2r ("s")), (str2r ("1-1")), (⟨[]⟩ : StreamData)),
             ((str2r ("s")), (str2r ("0-5")), (⟨[]⟩ : StreamData)),
             ((str2r ("s")), (str2r ("1-2")), (⟨[]⟩ : StreamData))],
      fullySpecifiedId op.2.1 = true) ∧
    storeStreamsSorted (xaddRun 0
      [((str2r ("s")), (str2r ("1-1")), (⟨[]⟩ : StreamData)),
       ((str2r ("s")), (str2r ("0-5")), (⟨[]⟩ : StreamData)),
       ((str2r ("s")), (str2r ("1-2")), (⟨[]⟩ : StreamData))] Store.new) :=
  ⟨by decide, c4_xadd_streams_strictly_increasing 0 _ (by decide)⟩

/-- C5 (code evaluation at the failing input): with no stream at the key,
`validate_stream_id` accepts any id before checking the `0-0` rule, so
`XADD s 0-0` on a fresh store succeeds: the entry `(0,0)` is appended and the
reply is the id, not the claimed error. -/
theorem c5_xadd_zero_id_accepted_on_empty_stream :
    Store.new.validate_stream_id (str2r ("s")) (str2r ("0-0")) = .ok ∧
    (xaddStep 0 Store.new (str2r ("s")) (str2r ("0-0")) ⟨[]⟩).1 =
      ⟨[(str2r ("s"), .stream ⟨[(⟨0, 0⟩, ⟨[]⟩)]⟩)]⟩ ∧
    (xaddStep 0 Store.new (str2r ("s")) (str2r ("0-0")) ⟨[]⟩).2 =
      some (.bulkString (str2r ("0-0"))) :=
  ⟨rfl, rfl, rfl⟩

/-- C6 (counterexample): resolving `5-*` against the stream
`[(5,0), (6,0)]` yields `5-0`, although the stream has a prior entry with
ms = 5 whose seq is 0, so the claim predicts `5-1`: only the last entry is
consulted, not "a prior entry". -/
theorem c6_seq_resolution_counterexample :
    Store.auto_generate_stream_id 0
        ⟨[(str2r ("s"), .stream ⟨[(⟨5, 0⟩, ⟨[]⟩), (⟨6, 0⟩, ⟨[]⟩)]⟩)]⟩
        (str2r ("s")) (str2r ("5-*")) = .ok (str2r ("5-0")) ∧
    (⟨5, 0⟩ : StreamId) ∈
      (streamEntriesAt ⟨[(str2r ("s"), .stream ⟨[(⟨5, 0⟩, ⟨[]⟩), (⟨6, 0⟩, ⟨[]⟩)]⟩)]⟩
        (str2r ("s"))).map Prod.fst ∧
    str2r ("5-0") ≠ str2r ("5-1") :=
  ⟨rfl, by decide, by decide⟩

/-- C6 (amended): for a `<ms>-*` pattern, the resolved seq is determined by
the stream's *last* entry only, by string comparison of its ms against the
resolved ms field: last.seq + 1 on a match, otherwise 1 when the resolved ms
field is the string "0" and 0 otherwise. -/
theorem c6_seq_star_uses_last_entry (now : Nat) (st : Store) (key msS : RStr)
    (h1 : msS ≠ []) (h2 : (45 : Nat) ∉ msS) :
    Store.auto_generate_stream_id now st key (msS ++ [45, 42]) =
      .ok ((if msS = [42] then natToDigits now else msS) ++ 45 ::
        (match ((streamEntriesAt st key).map Prod.fst).getLast? with
         | some l =>
           if natToDigits l.ms = (if msS = [42] then natToDigits now else msS) then
             natToDigits (l.seq + 1)
           else if (if msS = [42] then natToDigits now else msS) = [48] then [49] else [48]
         | none =>
           if (if msS = [42] then natToDigits now else msS) = [48] then [49] else [48])) := by
  unfold Store.auto_generate_stream_id streamEntriesAt
  rcases hgs : st.get_stream key with _ | s
  · dsimp only
    rw [build_stream_id_eval now msS none h1 h2]
    rfl
  · dsimp only
    rw [build_stream_id_eval now msS _ h1 h2]

theorem c6_seq_star_uses_last_entry_witness :
    ([53] : RStr) ≠ [] ∧ (45 : Nat) ∉ ([53] : RStr) ∧
    Store.auto_generate_stream_id 7 Store.new (str2r ("k")) (([53] : RStr) ++ [45, 42]) =
      .ok [53, 45, 48] :=
  ⟨by decide, by decide,
   (c6_seq_star_uses_last_entry 7 Store.new (str2r ("k")) [53] (by decide) (by decide)).trans
     (by decide)⟩

theorem get_kv_value_insert (now : Nat) (st : Store) (key v : RStr) (exp : Nat) :
    Store.get_kv_value now (st.set_kv_value key ⟨v, some exp⟩) key =
      (if now > exp then none else some ⟨v, some exp⟩) := by
  unfold Store.get_kv_value Store.set_kv_value
  dsimp only
  rw [hmLookup_insert_self]

/-- C7: after `SET key v` with an expiry instant, `GET` strictly before the
instant answers the bulk-string value, and `GET` after the instant has
passed answers the raw null bulk string `$-1\r\n` — no background eviction
is involved, the read itself checks the clock. -/
theorem c7_get_respects_expiry (st : Store) (key v : RStr) (exp now1 now2 : Nat) :
    (now1 < exp → getResponse now1 (st.set_kv_value key ⟨v, some exp⟩) key =
      (Message.bulkString v).serialize) ∧
    (now2 > exp → getResponse now2 (st.set_kv_value key ⟨v, some exp⟩) key =
      [36, 45, 49, 13, 10]) := by
  constructor
  · intro h
    unfold getResponse
    rw [get_kv_value_insert, if_neg (show ¬ (now1 > exp) by omega)]
  · intro h
    unfold getResponse
    rw [get_kv_value_insert, if_pos h]

theorem c7_get_respects_expiry_witness :
    getResponse 5 (Store.new.set_kv_value [102] ⟨[98], some 100⟩) [102] =
      (Message.bulkString [98]).serialize ∧
    getResponse 200 (Store.new.set_kv_value [102] ⟨[98], some 100⟩) [102] =
      [36, 45, 49, 13, 10] :=
  ⟨(c7_get_respects_expiry Store.new [102] [98] 100 5 200).1 (by decide),
   (c7_get_respects_expiry Store.new [102] [98] 100 5 200).2 (by decide)⟩

/-- C10 (counterexample): the claim fails at the empty key — the `TYPE`
handler refuses an empty key before any lookup, so on an expired entry
stored under `""` it answers the "Need a key" error, not `string`. -/
theorem c10_expired_type_counterexample :
    Store.get_kv_value 10 (Store.new.set_kv_value [] ⟨[98], some 5⟩) [] = none ∧
    typeResponse (Store.new.set_kv_value [] ⟨[98], some 5⟩) [] =
      .simpleString (str2r ("Need a key to fetch the type")) ∧
    str2r ("Need a key to fetch the type") ≠ str2r ("string") :=
  ⟨rfl, rfl, by decide⟩

/-- C10 (amended): for every *non-empty* key holding a string entry whose
expiry has passed, the key-value read observes the expiry (returns none),
yet the key still appears in `KEYS *` and `TYPE` still answers `string`:
only `get_kv_value` consults `expiry_at`. -/
theorem c10_expiry_only_in_kv_read (st : Store) (key v : RStr) (exp now : Nat)
    (hk : key ≠ []) (hexp : now > exp) :
    Store.get_kv_value now (st.set_kv_value key ⟨v, some exp⟩) key = none ∧
    key ∈ (st.set_kv_value key ⟨v, some exp⟩).keys ∧
    typeResponse (st.set_kv_value key ⟨v, some exp⟩) key =
      .simpleString (str2r ("string")) := by
  refine ⟨?_, ?_, ?_⟩
  · rw [get_kv_value_insert, if_pos hexp]
  · unfold Store.keys Store.set_kv_value
    dsimp only
    exact mem_keys_hmInsert st.data key _
  · unfold typeResponse
    rw [if_neg (show ¬ key.length = 0 from fun hh => hk (List.length_eq_zero.mp hh))]
    unfold Store.get_value Store.set_kv_value
    dsimp only
    rw [hmLookup_insert_self]
    rfl

theorem c10_expiry_only_in_kv_read_witness :
    Store.get_kv_value 10 (Store.new.set_kv_value [107] ⟨[98], some 5⟩) [107] = none ∧
    [107] ∈ (Store.new.set_kv_value [107] ⟨[98], some 5⟩).keys ∧
    typeResponse (Store.new.set_kv_value [107] ⟨[98], some 5⟩) [107] =
      .simpleString (str2r ("string")) :=
  c10_expiry_only_in_kv_read Store.new [107] [98] 5 10 (by decide) (by decide)

/-! ## Replica offset accounting (C8 machinery) -/

theorem handleMasterStep_err (now : Nat) (st : Store) (acc : Nat) (m : Message)
    (h : parse_client_command now m = .err) :
    handleMasterStep now st acc m = .ok (st, acc, none) := by
  unfold handleMasterStep
  rw [h]

theorem handleMasterStep_ok_shape (now : Nat) (st : Store) (acc : Nat) (m : Message)
    (hnp : stepPanics now m = false) (cmd : Command)
    (hok : parse_client_command now m = .ok cmd) :
    ∃ st1 out, handleMasterStep now st acc m =
      .ok (st1, acc + (Message.serialize m).length, out) := by
  unfold handleMasterStep
  rw [hok]
  cases cmd with
  | replconf args =>
    cases args with
    | nil =>
      have hfalse : true = false := by
        have h2 : (match parse_client_command now m with
          | .panic => true
          | .err => false
          | .ok (.replconf args) => args.isEmpty
          | .ok _ => false) = false := hnp
        rw [hok] at h2
        exact h2
      exact absurd hfalse (by simp)
    | cons a t => exact ⟨st, _, rfl⟩
  | set k e => exact ⟨_, _, rfl⟩
  | echo s => exact ⟨_, _, rfl⟩
  | ping => exact ⟨_, _, rfl⟩
  | get k => exact ⟨_, _, rfl⟩
  | info s => exact ⟨_, _, rfl⟩
  | psync args => exact ⟨_, _, rfl⟩
  | wait n t => exact ⟨_, _, rfl⟩
  | config a k => exact ⟨_, _, rfl⟩
  | keys p => exact ⟨_, _, rfl⟩
  | typeOf k => exact ⟨_, _, rfl⟩
  | xadd k i d => exact ⟨_, _, rfl⟩
  | xrange k a b => exact ⟨_, _, rfl⟩
  | xread b w r => exact ⟨_, _, rfl⟩

theorem countedLen_ok (now : Nat) (m : Message) (cmd : Command)
    (h : parse_client_command now m = .ok cmd) :
    countedLen now m = (Message.serialize m).length := by
  unfold countedLen
  rw [h]

theorem countedLen_err (now : Nat) (m : Message)
    (h : parse_client_command now m = .err) : countedLen now m = 0 := by
  unfold countedLen
  rw [h]

theorem handleMasterRun_cons_ok (now : Nat) (st st1 : Store) (acc acc1 : Nat) (m : Message)
    (ms : List Message) (out : Option Message)
    (h : handleMasterStep now st acc m = .ok (st1, acc1, out)) :
    handleMasterRun now (m :: ms) st acc =
      ((handleMasterRun now ms st1 acc1).1, (handleMasterRun now ms st1 acc1).2.1,
        out.toList ++ (handleMasterRun now ms st1 acc1).2.2) := by
  show (match handleMasterStep now st acc m with
    | .ok (st1, acc1, out) =>
      let r := handleMasterRun now ms st1 acc1
      (r.1, r.2.1, out.toList ++ r.2.2)
    | _ => (st, acc, [])) = _
  rw [h]

/-- C8 (amended): when a replica processes `REPLCONF GETACK` after a prefix
of messages none of which makes the handler panic, the emitted ACK carries
the starting offset plus the total serialized byte length of exactly those
prefix messages that parsed as commands; messages failing command parsing
are skipped without being counted. -/
theorem c8_ack_counts_parsed_bytes (now : Nat) (g : Message) (hg : isGetack now g = true) :
    ∀ (pre : List Message) (st : Store) (acc : Nat),
      (∀ m ∈ pre, stepPanics now m = false) →
      (handleMasterRun now (pre ++ [g]) st acc).2.2 =
        (handleMasterRun now pre st acc).2.2 ++
          [ackMessage (acc + (pre.map (countedLen now)).sum)] := by
  intro pre
  induction pre with
  | nil =>
    intro st acc hx
    rcases hpc : parse_client_command now g with cmd | _ | _
    · have hg2 : (match parse_client_command now g with
        | .ok (.replconf (a :: _)) => decide (toLower a = str2r ("getack"))
        | _ => false) = true := hg
      rw [hpc] at hg2
      cases cmd
      case replconf args =>
        rcases args with _ | ⟨a, t⟩
        · exact absurd hg2 (by simp)
        · have hga : toLower a = str2r ("getack") := by
            simpa using hg2
          have hstep : handleMasterStep now st acc g =
              .ok (st, acc + (Message.serialize g).length, some (ackMessage acc)) := by
            unfold handleMasterStep
            rw [hpc]
            simp [hga]
          rw [List.nil_append, handleMasterRun_cons_ok now st st acc _ g []
            (some (ackMessage acc)) hstep]
          simp [handleMasterRun]
      all_goals exact absurd hg2 (by simp)
    · have hg2 : (match parse_client_command now g with
        | .ok (.replconf (a :: _)) => decide (toLower a = str2r ("getack"))
        | _ => false) = true := hg
      rw [hpc] at hg2
      exact absurd hg2 (by simp)
    · have hg2 : (match parse_client_command now g with
        | .ok (.replconf (a :: _)) => decide (toLower a = str2r ("getack"))
        | _ => false) = true := hg
      rw [hpc] at hg2
      exact absurd hg2 (by simp)
  | cons m pre ih =>
    intro st acc hx
    have hm := hx m (List.mem_cons_self m pre)
    have hrest : ∀ x ∈ pre, stepPanics now x = false := fun x hxm =>
      hx x (List.mem_cons_of_mem m hxm)
    rcases hpc : parse_client_command now m with cmd | _ | _
    · obtain ⟨st1, out, hstep⟩ := handleMasterStep_ok_shape now st acc m hm cmd hpc
      rw [List.cons_append,
        handleMasterRun_cons_ok now st st1 acc _ m (pre ++ [g]) out hstep,
        handleMasterRun_cons_ok now st st1 acc _ m pre out hstep]
      dsimp only
      rw [ih st1 (acc + (Message.serialize m).length) hrest]
      rw [List.append_assoc]
      have hsum : acc + (Message.serialize m).length + (pre.map (countedLen now)).sum =
          acc + ((m :: pre).map (countedLen now)).sum := by
        rw [List.map_cons, List.sum_cons, countedLen_ok now m cmd hpc]
        omega
      rw [hsum]
    · rw [List.cons_append,
        handleMasterRun_cons_ok now st st acc acc m (pre ++ [g]) none
          (handleMasterStep_err now st acc m hpc),
        handleMasterRun_cons_ok now st st acc acc m pre none
          (handleMasterStep_err now st acc m hpc)]
      dsimp only
      rw [ih st acc hrest]
      rw [List.append_assoc]
      have hsum : acc + (pre.map (countedLen now)).sum =
          acc + ((m :: pre).map (countedLen now)).sum := by
        rw [List.map_cons, List.sum_cons, countedLen_err now m hpc]
        omega
      rw [hsum]
    · have hfalse : true = false := by
        have h2 : (match parse_client_command now m with
          | .panic => true
          | .err => false
          | .ok (.replconf args) => args.isEmpty
          | .ok _ => false) = false := hm
        rw [hpc] at h2
        exact h2
      exact absurd hfalse (by simp)

/-- C8 counterexample to the literal claim: a message that fails command
parsing (`BOGUS`, 15 serialized bytes) is skipped by `handle_master` without
being added to `bytes_received`, so the subsequent `REPLCONF GETACK` answers
`ACK 0`, not `ACK 15` as "every processed message" counting would demand. -/
theorem c8_unparsed_not_counted_counterexample :
    (handleMasterRun 0 [Message.array [Message.bulkString (str2r ("BOGUS"))],
        Message.array [Message.bulkString (str2r ("REPLCONF")),
          Message.bulkString (str2r ("GETACK")), Message.bulkString (str2r ("*"))]]
      Store.new 0).2.2 = [ackMessage 0] ∧
    (Message.serialize (Message.array [Message.bulkString (str2r ("BOGUS"))])).length
      = 15 ∧
    Message.serialize (ackMessage 0) ≠ Message.serialize (ackMessage 15) :=
  ⟨rfl, rfl, by decide⟩

theorem c8_ack_counts_parsed_bytes_witness :
    isGetack 0 (Message.array [Message.bulkString (str2r ("REPLCONF")),
        Message.bulkString (str2r ("GETACK")), Message.bulkString (str2r ("*"))]) = true ∧
    (∀ m ∈ [Message.array [Message.bulkString (str2r ("SET")),
        Message.bulkString (str2r ("foo")), Message.bulkString (str2r ("123"))]],
      stepPanics 0 m = false) ∧
    (handleMasterRun 0
        ([Message.array [Message.bulkString (str2r ("SET")),
            Message.bulkString (str2r ("foo")), Message.bulkString (str2r ("123"))]] ++
          [Message.array [Message.bulkString (str2r ("REPLCONF")),
            Message.bulkString (str2r ("GETACK")), Message.bulkString (str2r ("*"))]])
        Store.new 0).2.2 =
      (handleMasterRun 0
          [Message.array [Message.bulkString (str2r ("SET")),
            Message.bulkString (str2r ("foo")), Message.bulkString (str2r ("123"))]]
          Store.new 0).2.2 ++
        [ackMessage (0 +
          ([Message.array [Message.bulkString (str2r ("SET")),
            Message.bulkString (str2r ("foo")), Message.bulkString (str2r ("123"))]].map
              (countedLen 0)).sum)] :=
  ⟨by decide, by decide,
    c8_ack_counts_parsed_bytes 0
      (Message.array [Message.bulkString (str2r ("REPLCONF")),
        Message.bulkString (str2r ("GETACK")), Message.bulkString (str2r ("*"))])
      (by decide)
      [Message.array [Message.bulkString (str2r ("SET")),
        Message.bulkString (str2r ("foo")), Message.bulkString (str2r ("123"))]]
      Store.new 0 (by decide)⟩

/-! ## XADD field/value map properties (C9 machinery) -/

theorem pairsToMessages_cons (p : RStr × RStr) (ps : List (RStr × RStr)) :
    pairsToMessages (p :: ps) =
      Message.bulkString p.1 :: Message.bulkString p.2 :: pairsToMessages ps := rfl

theorem pairsToMessages_length (ps : List (RStr × RStr)) :
    (pairsToMessages ps).length = 2 * ps.length := by
  induction ps with
  | nil => rfl
  | cons p ps ih =>
    rw [pairsToMessages_cons]
    simp only [List.length_cons, ih]
    omega

theorem gsdLoop_pairs (ps : List (RStr × RStr)) :
    ∀ acc, gsdLoop (pairsToMessages ps) acc =
      .ok (ps.foldl (fun m p => hmInsert m p.1 p.2) acc) := by
  induction ps with
  | nil => intro acc; rfl
  | cons p ps ih =>
    intro acc
    rw [pairsToMessages_cons]
    show gsdLoop (pairsToMessages ps) (hmInsert acc p.1 p.2) = _
    rw [ih]
    rfl

theorem get_stream_data_pairs (ps : List (RStr × RStr)) :
    get_stream_data (pairsToMessages ps) = .ok ⟨hmOfPairs ps⟩ := by
  unfold get_stream_data
  rw [gsdLoop_pairs ps [], pairsToMessages_length]
  simp [hmOfPairs, Nat.mul_mod_right]

theorem keys_hmInsert_cases {β : Type} (l : List (RStr × β)) (k : RStr) (v : β) (x : RStr)
    (h : x ∈ (hmInsert l k v).map Prod.fst) : x = k ∨ x ∈ l.map Prod.fst := by
  induction l with
  | nil => simpa [hmInsert] using h
  | cons p rest ih =>
    obtain ⟨k1, v1⟩ := p
    simp only [hmInsert] at h
    by_cases hk : k1 = k
    · rw [if_pos hk] at h
      simp only [List.map_cons, List.mem_cons] at h
      rcases h with h | h
      · exact Or.inl h
      · exact Or.inr (by simp [h])
    · rw [if_neg hk] at h
      simp only [List.map_cons, List.mem_cons] at h
      rcases h with h | h
      · exact Or.inr (by simp [h])
      · rcases ih h with h1 | h1
        · exact Or.inl h1
        · exact Or.inr (by simp [h1])

theorem nodup_keys_hmInsert {β : Type} (l : List (RStr × β)) (k : RStr) (v : β)
    (h : (l.map Prod.fst).Nodup) : ((hmInsert l k v).map Prod.fst).Nodup := by
  induction l with
  | nil => simp [hmInsert]
  | cons p rest ih =>
    obtain ⟨k1, v1⟩ := p
    simp only [List.map_cons, List.nodup_cons] at h
    obtain ⟨hk1, hrest⟩ := h
    simp only [hmInsert]
    by_cases hk : k1 = k
    · rw [if_pos hk]
      simp only [List.map_cons, List.nodup_cons]
      exact ⟨hk ▸ hk1, hrest⟩
    · rw [if_neg hk]
      simp only [List.map_cons, List.nodup_cons]
      refine ⟨?_, ih hrest⟩
      intro hx
      rcases keys_hmInsert_cases rest k v k1 hx with h1 | h1
      · exact hk h1
      · exact hk1 h1

theorem nodup_keys_foldl (ps : List (RStr × RStr)) :
    ∀ m : List (RStr × RStr), (m.map Prod.fst).Nodup →
      ((ps.foldl (fun m p => hmInsert m p.1 p.2) m).map Prod.fst).Nodup := by
  induction ps with
  | nil => intro m h; exact h
  | cons p ps ih =>
    intro m h
    exact ih (hmInsert m p.1 p.2) (nodup_keys_hmInsert m p.1 p.2 h)

theorem hmLookup_append {β : Type} (l1 l2 : List (RStr × β)) (k : RStr) :
    hmLookup (l1 ++ l2) k =
      match hmLookup l1 k with
      | some v => some v
      | none => hmLookup l2 k := by
  induction l1 with
  | nil => rfl
  | cons p rest ih =>
    obtain ⟨k1, v1⟩ := p
    by_cases hk : k1 = k
    · simp only [List.cons_append, hmLookup, if_pos hk]
    · simp only [List.cons_append, hmLookup, if_neg hk]
      exact ih

theorem hmLookup_foldl (ps : List (RStr × RStr)) :
    ∀ (m : List (RStr × RStr)) (k : RStr),
      hmLookup (ps.foldl (fun m p => hmInsert m p.1 p.2) m) k =
        match lastAssign ps k with
        | some v => some v
        | none => hmLookup m k := by
  induction ps with
  | nil => intro m k; rfl
  | cons p ps ih =>
    obtain ⟨a, b⟩ := p
    intro m k
    have hL : lastAssign ((a, b) :: ps) k =
        match lastAssign ps k with
        | some v => some v
        | none => hmLookup [(a, b)] k := by
      unfold lastAssign
      rw [List.reverse_cons, hmLookup_append]
      cases hmLookup ps.reverse k <;> rfl
    show hmLookup (ps.foldl (fun m p => hmInsert m p.1 p.2) (hmInsert m a b)) k = _
    rw [ih, hL]
    cases lastAssign ps k with
    | some v => rfl
    | none =>
      by_cases hk : a = k
      · subst hk
        rw [hmLookup_insert_self]
        simp [hmLookup]
      · rw [hmLookup_insert_other m a k b (fun he => hk he.symm)]
        simp [hmLookup, hk]

/-- C9 counterexample to the literal claim: the XADD arguments
`a 1 a 2` yield a stream entry holding only `(a, 2)`; the pair `(a, 1)` from
the input is not stored, so not *all* field/value pairs reach the entry. -/
theorem c9_duplicate_field_counterexample :
    get_stream_data [Message.bulkString (str2r ("a")), Message.bulkString (str2r ("1")),
      Message.bulkString (str2r ("a")), Message.bulkString (str2r ("2"))] =
      .ok ⟨[(str2r ("a"), str2r ("2"))]⟩ ∧
    (str2r ("a"), str2r ("1")) ∉ [(str2r ("a"), str2r ("2"))] :=
  ⟨rfl, by decide⟩

/-- C9 (amended): `get_stream_data` takes the XADD field/value arguments
pairwise and inserts them into a `HashMap`, so the stored entry holds each
field exactly once, bound to the value of its last occurrence in the
argument list; duplicate fields are collapsed rather than all retained. -/
theorem c9_stream_data_is_last_assignment (ps : List (RStr × RStr)) :
    get_stream_data (pairsToMessages ps) = .ok ⟨hmOfPairs ps⟩ ∧
    ((hmOfPairs ps).map Prod.fst).Nodup ∧
    ∀ k, hmLookup (hmOfPairs ps) k = lastAssign ps k := by
  refine ⟨get_stream_data_pairs ps, nodup_keys_foldl ps [] (by simp), ?_⟩
  intro k
  unfold hmOfPairs
  rw [hmLookup_foldl ps [] k]
  cases lastAssign ps k <;> rfl

end Redis
